import Mathlib

/-!
Verification of the `budgeting` Django app (models.py services) against its
natural-language specification.  The relational state is embedded shallowly:
each Django model becomes a record structure, the database becomes lists of
rows plus a fresh-id counter, queryset operations become list operations, and
`Decimal` amounts become exact rationals.  Calendar arithmetic mirrors
Python's proleptic-Gregorian `datetime.date` plus `timedelta`.
-/

namespace Budget

/-- Calendar date (year, month, day), mirroring Python `datetime.date`. -/
structure Date where
  year : Nat
  month : Nat
  day : Nat
deriving Repr, DecidableEq

/-- Gregorian leap-year rule, as used by `datetime.date`. -/
def isLeap (y : Nat) : Bool :=
  (y % 4 == 0 && y % 100 != 0) || y % 400 == 0

/-- Number of days in month `m` of year `y` (Gregorian). -/
def daysInMonth (y m : Nat) : Nat :=
  if m = 2 then (if isLeap y then 29 else 28)
  else if m = 4 ∨ m = 6 ∨ m = 9 ∨ m = 11 then 30
  else 31

/-- Python `d.replace(day=1)`: normalize a date to the first of its month. -/
def firstOfMonth (d : Date) : Date := { d with day := 1 }

/-- Strict lexicographic order on dates, as Python compares `date` values. -/
def Date.blt (a b : Date) : Bool :=
  a.year < b.year ||
    (a.year == b.year &&
      (a.month < b.month || (a.month == b.month && a.day < b.day)))

/-- Reflexive lexicographic order on dates. -/
def Date.ble (a b : Date) : Bool := a == b || Date.blt a b

/-- Successor month in the calendar, rolling December into January. -/
def monthStep : Nat × Nat → Nat × Nat :=
  fun p => if p.2 = 12 then (p.1 + 1, 1) else (p.1, p.2 + 1)

/-- Starting from day number `d` (1-based) counted from the first day of month
`(y, m)`, roll forward month by month until the day number fits inside the
current month.  This is exactly how `datetime.date + timedelta(days=k)`
lands for nonnegative `k`.  The first argument is fuel; it is always called
with fuel `≥ d`, which suffices because `d` shrinks by at least 28 per step. -/
def rollFromAux : Nat → Nat → Nat → Nat → Date
  | 0, y, m, d => ⟨y, m, d⟩
  | fuel + 1, y, m, d =>
    if d ≤ daysInMonth y m then ⟨y, m, d⟩
    else
      if m = 12 then rollFromAux fuel (y + 1) 1 (d - daysInMonth y m)
      else rollFromAux fuel y (m + 1) (d - daysInMonth y m)

/-- Roll day number `d` (1-based from the first of month `(y, m)`) into a
calendar date. -/
def rollFrom (y m d : Nat) : Date := rollFromAux d y m d

/-- Python `dt + timedelta(days=k)` for a nonnegative number of days. -/
def addDays (dt : Date) (k : Nat) : Date :=
  rollFrom dt.year dt.month (dt.day + k)

/-- Month status choices (`MonthStatus` in models.py). -/
inductive MonthStatus where
  | Open
  | Closed
deriving Repr, DecidableEq

/-- Expense type choices (`ExpenseType` in models.py). -/
inductive ExpenseType where
  | Recurring
  | Variable
deriving Repr, DecidableEq

/-- Row of `RecurringExpenseTemplate`. -/
structure RecurringExpenseTemplate where
  id : Nat
  user : Option Nat
  name : String
  default_amount : ℚ
  default_category_name : String
  notes : String
  active : Bool
deriving Repr, DecidableEq

/-- Row of `MonthBudget`. -/
structure MonthBudget where
  id : Nat
  user : Option Nat
  month : Date
  net_income : ℚ
  status : MonthStatus
deriving Repr, DecidableEq

/-- Row of `MonthCategory`. -/
structure MonthCategory where
  id : Nat
  month_budget : Nat
  name : String
  sort_order : Nat
deriving Repr, DecidableEq

/-- Row of `MonthExpense`.  `month_budget` is the nullable denormalized
month reference; `month_category` is the (non-null) category reference. -/
structure MonthExpense where
  id : Nat
  month_budget : Option Nat
  month_category : Nat
  name : String
  amount : ℚ
  expense_type : ExpenseType
  date : Option Date
  notes : String
  enabled : Bool
  template : Option Nat
deriving Repr, DecidableEq

/-- Row of `ForecastOverride`. -/
structure ForecastOverride where
  id : Nat
  month_budget : Nat
  month_category : Nat
  override_amount : ℚ
deriving Repr, DecidableEq

/-- The relational state: one list of rows per table plus a fresh primary-key
counter (auto-increment ids). -/
structure DB where
  templates : List RecurringExpenseTemplate
  months : List MonthBudget
  categories : List MonthCategory
  expenses : List MonthExpense
  overrides : List ForecastOverride
  nextId : Nat
deriving Repr, DecidableEq

/-- Look up a `MonthBudget` row by primary key. -/
def getMonthById (db : DB) (i : Nat) : Option MonthBudget :=
  db.months.find? (fun mb => decide (mb.id = i))

/-- Look up a category row by primary key in a list of rows. -/
def findCat (cats : List MonthCategory) (i : Nat) : Option MonthCategory :=
  cats.find? (fun c => decide (c.id = i))

/-- Look up a `MonthCategory` row by primary key. -/
def getCategoryById (db : DB) (i : Nat) : Option MonthCategory :=
  findCat db.categories i

/-- The error raised by the closed-month guard (`PermissionDenied` with the
"month is closed" message in models.py; spelled `MonthClosed` in the spec). -/
inductive WriteError where
  | MonthClosed
deriving Repr, DecidableEq

/-- `ClosedMonthGuardMixin._get_month_budget` for a `MonthExpense`: the
denormalized `month_budget` reference if set, otherwise the month reached
through `month_category`. -/
def resolveExpenseMonth (db : DB) (e : MonthExpense) : Option MonthBudget :=
  match e.month_budget with
  | some mid => getMonthById db mid
  | none =>
    match getCategoryById db e.month_category with
    | some c => getMonthById db c.month_budget
    | none => none

/-- `ClosedMonthGuardMixin._get_month_budget` for a `MonthCategory`
(direct `month_budget` reference). -/
def resolveCategoryMonth (db : DB) (c : MonthCategory) : Option MonthBudget :=
  getMonthById db c.month_budget

/-- `ClosedMonthGuardMixin._get_month_budget` for a `ForecastOverride`
(direct `month_budget` reference, checked before the category path). -/
def resolveOverrideMonth (db : DB) (o : ForecastOverride) : Option MonthBudget :=
  getMonthById db o.month_budget

/-- Guard test shared by save and delete: blocked exactly when the resolved
month exists, is Closed, and no admin override flag was supplied. -/
def guardBlocks (mb : Option MonthBudget) (admin_override : Bool) : Bool :=
  match mb with
  | some m => decide (m.status = MonthStatus.Closed) && !admin_override
  | none => false

/-- `models.Model.save` for a category row (the `super().save()` call):
replace the row with the same id, or insert the row if its id is new. -/
def superSaveCategory (db : DB) (c : MonthCategory) : DB :=
  if db.categories.any (fun x => decide (x.id = c.id)) then
    { db with categories :=
        db.categories.map (fun x => if x.id = c.id then c else x) }
  else
    { db with categories := db.categories ++ [c] }

/-- `models.Model.save` for an expense row. -/
def superSaveExpense (db : DB) (e : MonthExpense) : DB :=
  if db.expenses.any (fun x => decide (x.id = e.id)) then
    { db with expenses :=
        db.expenses.map (fun x => if x.id = e.id then e else x) }
  else
    { db with expenses := db.expenses ++ [e] }

/-- `models.Model.save` for a forecast-override row. -/
def superSaveOverride (db : DB) (o : ForecastOverride) : DB :=
  if db.overrides.any (fun x => decide (x.id = o.id)) then
    { db with overrides :=
        db.overrides.map (fun x => if x.id = o.id then o else x) }
  else
    { db with overrides := db.overrides ++ [o] }

/-- `MonthCategory.save` through `ClosedMonthGuardMixin.save`. -/
def saveCategory (db : DB) (c : MonthCategory) (admin_override : Bool) :
    Except WriteError DB :=
  if guardBlocks (resolveCategoryMonth db c) admin_override then
    Except.error WriteError.MonthClosed
  else
    Except.ok (superSaveCategory db c)

/-- `MonthCategory.delete` through `ClosedMonthGuardMixin.delete`. -/
def deleteCategory (db : DB) (c : MonthCategory) (admin_override : Bool) :
    Except WriteError DB :=
  if guardBlocks (resolveCategoryMonth db c) admin_override then
    Except.error WriteError.MonthClosed
  else
    Except.ok { db with categories :=
      db.categories.filter (fun x => decide (x.id ≠ c.id)) }

/-- `MonthExpense.save` through `ClosedMonthGuardMixin.save`. -/
def saveExpense (db : DB) (e : MonthExpense) (admin_override : Bool) :
    Except WriteError DB :=
  if guardBlocks (resolveExpenseMonth db e) admin_override then
    Except.error WriteError.MonthClosed
  else
    Except.ok (superSaveExpense db e)

/-- `MonthExpense.delete` through `ClosedMonthGuardMixin.delete`. -/
def deleteExpense (db : DB) (e : MonthExpense) (admin_override : Bool) :
    Except WriteError DB :=
  if guardBlocks (resolveExpenseMonth db e) admin_override then
    Except.error WriteError.MonthClosed
  else
    Except.ok { db with expenses :=
      db.expenses.filter (fun x => decide (x.id ≠ e.id)) }

/-- `ForecastOverride.save` through `ClosedMonthGuardMixin.save`. -/
def saveOverride (db : DB) (o : ForecastOverride) (admin_override : Bool) :
    Except WriteError DB :=
  if guardBlocks (resolveOverrideMonth db o) admin_override then
    Except.error WriteError.MonthClosed
  else
    Except.ok (superSaveOverride db o)

/-- `ForecastOverride.delete` through `ClosedMonthGuardMixin.delete`. -/
def deleteOverride (db : DB) (o : ForecastOverride) (admin_override : Bool) :
    Except WriteError DB :=
  if guardBlocks (resolveOverrideMonth db o) admin_override then
    Except.error WriteError.MonthClosed
  else
    Except.ok { db with overrides :=
      db.overrides.filter (fun x => decide (x.id ≠ o.id)) }

/-- `MonthBudget.save`: if a stored row with this pk exists, is Closed, and
the incoming `net_income` differs, raise; otherwise upsert the row. -/
def saveMonthBudget (db : DB) (mb : MonthBudget) : Except WriteError DB :=
  match db.months.find? (fun p => decide (p.id = mb.id)) with
  | some prev =>
    if prev.status = MonthStatus.Closed ∧ mb.net_income ≠ prev.net_income then
      Except.error WriteError.MonthClosed
    else
      let ms := db.months.map (fun x => if x.id = mb.id then mb else x)
      Except.ok { db with months := ms }
  | none => Except.ok { db with months := db.months ++ [mb] }

/-- Queryset `MonthBudget.objects.filter(user=user, month=month)` followed by
`.first()`-style retrieval (used by `get_or_create` to find an existing row). -/
def findMonth (db : DB) (user : Option Nat) (m : Date) : Option MonthBudget :=
  db.months.find? (fun mb => decide (mb.user = user) && decide (mb.month = m))

/-- `MonthBudget.objects.filter(user=user, month__lt=m).order_by("-month")
.first()`: the stored month for `user` with the greatest month strictly
before `m` (first-listed row wins a tie). -/
def latestBefore (db : DB) (user : Option Nat) (m : Date) : Option MonthBudget :=
  (db.months.filter
      (fun mb => decide (mb.user = user) && Date.blt mb.month m)).foldl
    (fun best mb =>
      match best with
      | none => some mb
      | some b => if Date.blt b.month mb.month then some mb else some b)
    none

/-- `MonthBudget.objects.filter(user=user, month__lte=m).order_by("-month")
.first()`: the latest stored month at or before `m`. -/
def latestAtOrBefore (db : DB) (user : Option Nat) (m : Date) :
    Option MonthBudget :=
  (db.months.filter
      (fun mb => decide (mb.user = user) && Date.ble mb.month m)).foldl
    (fun best mb =>
      match best with
      | none => some mb
      | some b => if Date.blt b.month mb.month then some mb else some b)
    none

/-- Ascending `(sort_order, name)` comparison used by
`order_by("sort_order", "name")` (also the model Meta ordering). -/
def catOrderLe (a b : MonthCategory) : Bool :=
  a.sort_order < b.sort_order ||
    (a.sort_order == b.sort_order && decide (a.name ≤ b.name))

/-- `prev.monthcategory_set.all().order_by("sort_order", "name")`. -/
def sortCats (l : List MonthCategory) : List MonthCategory :=
  l.mergeSort catOrderLe

/-- Ascending name comparison: `RecurringExpenseTemplate.Meta.ordering`. -/
def templateLe (a b : RecurringExpenseTemplate) : Bool :=
  decide (a.name ≤ b.name)

/-- Template queryset iteration order (Meta `ordering = ["name"]`). -/
def sortTemplates (l : List RecurringExpenseTemplate) :
    List RecurringExpenseTemplate :=
  l.mergeSort templateLe

/-- Python dict lookup for the `name_to_cat` mapping, where a repeated key
assignment overrides the earlier one (the last matching entry wins). -/
def dictGet (m : List (String × MonthCategory)) (k : String) :
    Option MonthCategory :=
  m.foldl (fun acc p => if p.1 = k then some p.2 else acc) none

/-- Category-cloning loop of `create_month_with_defaults`: for each category
of the previous month (in `(sort_order, name)` order) create an independent
copy attached to the month `mbId`, recording it in `name_to_cat`. -/
def cloneCatsLoop (mbId : Nat) : DB → List MonthCategory →
    List (String × MonthCategory) → DB × List (String × MonthCategory)
  | db, [], ntc => (db, ntc)
  | db, cat :: rest, ntc =>
    let newCat : MonthCategory := ⟨db.nextId, mbId, cat.name, cat.sort_order⟩
    let db' : DB :=
      { db with categories := db.categories ++ [newCat],
                nextId := db.nextId + 1 }
    cloneCatsLoop mbId db' rest (ntc ++ [(cat.name, newCat)])

/-- Expense-cloning loop of `create_month_with_defaults` over
`MonthExpense.objects.filter(month_budget=prev)`: an item is copied only when
`name_to_cat` holds its category's name; the copy's date is reset to the new
month's first day for Variable items and left unset for Recurring ones.
A dangling `month_category` reference (no such category row) is treated as a
skip; in a state where every referenced row exists this branch is dead. -/
def cloneExpensesLoop (mbId : Nat) (newMonth : Date)
    (ntc : List (String × MonthCategory)) : DB → List MonthExpense → DB
  | db, [] => db
  | db, item :: rest =>
    match getCategoryById db item.month_category with
    | none => cloneExpensesLoop mbId newMonth ntc db rest
    | some itemCat =>
      match dictGet ntc itemCat.name with
      | none => cloneExpensesLoop mbId newMonth ntc db rest
      | some cat =>
        let e : MonthExpense :=
          { id := db.nextId, month_budget := some mbId,
            month_category := cat.id, name := item.name,
            amount := item.amount, expense_type := item.expense_type,
            date := if item.expense_type = ExpenseType.Variable then
                some newMonth
              else none,
            notes := item.notes, enabled := item.enabled,
            template := item.template }
        let db' : DB :=
          { db with expenses := db.expenses ++ [e], nextId := db.nextId + 1 }
        cloneExpensesLoop mbId newMonth ntc db' rest

/-- `MonthCategory.objects.filter(month_budget=mb)
.aggregate(m=models.Max("sort_order")).get("m") or 0`. -/
def aggMaxSortOrder (db : DB) (mbId : Nat) : Nat :=
  (((db.categories.filter (fun c => decide (c.month_budget = mbId))).map
    (fun c => c.sort_order)).max?).getD 0

/-- Template-seeding loop of `create_month_with_defaults`: for each active
template (in name order) ensure a category named by the template exists —
creating it after all existing ones with a sort-order gap of 10 — and create
a Recurring expense from the template. -/
def seedLoop (mbId : Nat) : DB → List RecurringExpenseTemplate →
    List (String × MonthCategory) → DB
  | db, [], _ => db
  | db, t :: rest, ntc =>
    match dictGet ntc t.default_category_name with
    | some cat =>
      let e : MonthExpense :=
        { id := db.nextId, month_budget := some mbId,
          month_category := cat.id, name := t.name,
          amount := t.default_amount, expense_type := ExpenseType.Recurring,
          date := none, notes := "", enabled := true, template := some t.id }
      let db' : DB :=
        { db with expenses := db.expenses ++ [e], nextId := db.nextId + 1 }
      seedLoop mbId db' rest ntc
    | none =>
      let max_order := aggMaxSortOrder db mbId
      let cat : MonthCategory :=
        ⟨db.nextId, mbId, t.default_category_name, max_order + 10⟩
      let db' : DB :=
        { db with categories := db.categories ++ [cat],
                  nextId := db.nextId + 1 }
      let e : MonthExpense :=
        { id := db'.nextId, month_budget := some mbId,
          month_category := cat.id, name := t.name,
          amount := t.default_amount, expense_type := ExpenseType.Recurring,
          date := none, notes := "", enabled := true, template := some t.id }
      let db'' : DB :=
        { db' with expenses := db'.expenses ++ [e], nextId := db'.nextId + 1 }
      seedLoop mbId db'' rest (ntc ++ [(t.default_category_name, cat)])

/-- The service `create_month_with_defaults(month, user,
carry_forward_income)`: normalize to the first of the month, `get_or_create`
the `MonthBudget`, and when newly created either clone the most recent prior
month (categories, then all of its expenses) or seed from the user's active
templates.  The income carry-forward goes through `MonthBudget.save`; its
closed-month check cannot fire because the stored row was just created Open,
so the effect is the plain row update written here. -/
def create_month_with_defaults (db : DB) (month : Date) (user : Option Nat)
    (carry_forward_income : Bool) : MonthBudget × DB :=
  let m := firstOfMonth month
  match findMonth db user m with
  | some mb => (mb, db)
  | none =>
    let mb : MonthBudget := ⟨db.nextId, user, m, 0, MonthStatus.Open⟩
    let db1 : DB :=
      { db with months := db.months ++ [mb], nextId := db.nextId + 1 }
    match latestBefore db1 user m with
    | some prev =>
      let mb2 := if carry_forward_income then
          { mb with net_income := prev.net_income }
        else mb
      let months2 := db1.months.map (fun x => if x.id = mb.id then mb2 else x)
      let db2 := if carry_forward_income then
          { db1 with months := months2 }
        else db1
      let prevCats := sortCats (db2.categories.filter
        (fun c => decide (c.month_budget = prev.id)))
      let dbntc := cloneCatsLoop mb.id db2 prevCats []
      let prevExps := dbntc.1.expenses.filter
        (fun e => decide (e.month_budget = some prev.id))
      let db4 := cloneExpensesLoop mb.id m dbntc.2 dbntc.1 prevExps
      (mb2, db4)
    | none =>
      let temps := sortTemplates (db1.templates.filter
        (fun t => t.active && decide (t.user = user)))
      let db2 := seedLoop mb.id db1 temps []
      (mb, db2)

/-- SQL `SUM` aggregate: `None` over an empty row set, else the sum. -/
def aggSum (l : List ℚ) : Option ℚ :=
  if l.isEmpty then none else some l.sum

/-- Python `x or y` on `Decimal` operands: `x` unless `x` is zero (falsy). -/
def pyOr (x y : ℚ) : ℚ := if x = 0 then y else x

/-- `MonthBudget.total_recurring`: summed amounts of this month's enabled
Recurring expenses (through the denormalized `month_budget` reference),
with SQL `NULL` collapsed to `0`. -/
def total_recurring (db : DB) (mb : MonthBudget) : ℚ :=
  (aggSum ((db.expenses.filter (fun e =>
      decide (e.month_budget = some mb.id) && e.enabled &&
        decide (e.expense_type = ExpenseType.Recurring))).map
    (fun e => e.amount))).getD 0

/-- `MonthBudget.total_variable`: summed amounts of this month's Variable
expenses (no `enabled` filter), with SQL `NULL` collapsed to `0`. -/
def total_variable (db : DB) (mb : MonthBudget) : ℚ :=
  (aggSum ((db.expenses.filter (fun e =>
      decide (e.month_budget = some mb.id) &&
        decide (e.expense_type = ExpenseType.Variable))).map
    (fun e => e.amount))).getD 0

/-- `MonthBudget.total_expenses`. -/
def total_expenses (db : DB) (mb : MonthBudget) : ℚ :=
  pyOr (total_recurring db mb) 0 + pyOr (total_variable db mb) 0

/-- `MonthBudget.balance`. -/
def balance (db : DB) (mb : MonthBudget) : ℚ :=
  pyOr mb.net_income 0 - total_expenses db mb

/-- Pre-grouping rows of the `trailing_average_variable` queryset: each
Variable expense of the named category (joined through `month_category` to
its owning month) for this user with month strictly before `up_to`, paired
as (owning month, amount).  Rows with dangling references contribute
nothing; in a state where every referenced row exists there are none. -/
def matchRows (db : DB) (user : Option Nat) (up_to : Date)
    (category_name : String) : List (Date × ℚ) :=
  db.expenses.filterMap (fun e =>
    match getCategoryById db e.month_category with
    | none => none
    | some c =>
      match getMonthById db c.month_budget with
      | none => none
      | some mb =>
        if decide (mb.user = user) && decide (c.name = category_name) &&
            Date.blt mb.month up_to &&
            decide (e.expense_type = ExpenseType.Variable) then
          some (mb.month, e.amount)
        else none)

/-- Descending date comparison for `order_by("-…month")`. -/
def dateGe (a b : Date) : Bool := Date.ble b a

/-- `trailing_average_variable(user, up_to_month, category_name, months)`:
group the matching Variable expenses by owning month, sum each group, order
the per-month totals by month descending, keep the first `months` of them,
and return their mean (`0` when there is no history). -/
def trailing_average_variable (db : DB) (user : Option Nat)
    (up_to_month : Date) (category_name : String) (months : Nat) : ℚ :=
  let up_to := firstOfMonth up_to_month
  let rows := matchRows db user up_to category_name
  let groups := ((rows.map Prod.fst).dedup).mergeSort dateGe
  let totals := (groups.take months).map (fun mo =>
    ((rows.filter (fun r => decide (r.1 = mo))).map Prod.snd).sum)
  if totals.isEmpty then 0 else totals.sum / (totals.length : ℚ)

/-- The `ForecastResult` dataclass. -/
structure ForecastResult where
  month : Date
  recurring_total : ℚ
  variable_estimate : ℚ
  total_expenses : ℚ
  balance : ℚ
deriving Repr, DecidableEq

/-- Python dict accumulation
`recurring_by_cat[name] = recurring_by_cat.get(name, 0) + amount`
(insertion order preserved, repeated keys summed in place). -/
def bumpByCat (acc : List (String × ℚ)) (k : String) (v : ℚ) :
    List (String × ℚ) :=
  if acc.any (fun p => decide (p.1 = k)) then
    acc.map (fun p => if p.1 = k then (p.1, p.2 + v) else p)
  else acc ++ [(k, v)]

/-- The `recurring_by_cat` dict of `forecast_months`: enabled Recurring
expenses of the baseline month, grouped by category name. -/
def recurringByCat (db : DB) (latest : MonthBudget) : List (String × ℚ) :=
  (db.expenses.filter (fun e =>
      decide (e.month_budget = some latest.id) && e.enabled &&
        decide (e.expense_type = ExpenseType.Recurring))).foldl
    (fun acc r =>
      match getCategoryById db r.month_category with
      | none => acc
      | some c => bumpByCat acc c.name r.amount)
    []

/-- The month-stepping expression of `forecast_months`:
`(start.replace(day=15) + timedelta(days=32 * i)).replace(day=1)`. -/
def forecastStepMonth (start : Date) (i : Nat) : Date :=
  firstOfMonth (addDays { start with day := 15 } (32 * i))

/-- `forecast_months(user, start_month, horizon)`. -/
def forecast_months (db : DB) (user : Option Nat) (start_month : Date)
    (horizon : Nat) : List ForecastResult :=
  let start := firstOfMonth start_month
  let latest := latestAtOrBefore db user start
  let rbc := match latest with
    | none => []
    | some l => recurringByCat db l
  (List.range horizon).map (fun i =>
    let m := forecastStepMonth start i
    let recurring_total := if rbc.isEmpty then 0 else (rbc.map Prod.snd).sum
    let variable_estimate :=
      (rbc.map (fun p => trailing_average_variable db user m p.1 3)).sum
    let te := recurring_total + variable_estimate
    { month := m, recurring_total := recurring_total,
      variable_estimate := variable_estimate, total_expenses := te,
      balance := 0 - te })

/-!
Fault model for `@transaction.atomic`: we re-run `create_month_with_defaults`
with a budget of `fuel` successful row writes.  Each row write consumes one
unit of fuel; a write attempted with no fuel left raises, carrying the
would-be partial state (what a non-transactional run would have persisted)
in the `error` constructor.  `transaction.atomic` then maps any raise back
to the caller's original state.
-/

/-- Fault-injected category-cloning loop: on `ok` it also returns unused
fuel. -/
def cloneCatsLoopF (mbId : Nat) : Nat → DB → List MonthCategory →
    List (String × MonthCategory) →
    Except DB (Nat × DB × List (String × MonthCategory))
  | fuel, db, [], ntc => Except.ok (fuel, db, ntc)
  | 0, db, _ :: _, _ => Except.error db
  | fuel + 1, db, cat :: rest, ntc =>
    let newCat : MonthCategory := ⟨db.nextId, mbId, cat.name, cat.sort_order⟩
    let db' : DB :=
      { db with categories := db.categories ++ [newCat],
                nextId := db.nextId + 1 }
    cloneCatsLoopF mbId fuel db' rest (ntc ++ [(cat.name, newCat)])

/-- Fault-injected expense-cloning loop (skipped items write nothing and
consume no fuel). -/
def cloneExpensesLoopF (mbId : Nat) (newMonth : Date)
    (ntc : List (String × MonthCategory)) : Nat → DB → List MonthExpense →
    Except DB (Nat × DB)
  | fuel, db, [] => Except.ok (fuel, db)
  | fuel, db, item :: rest =>
    match getCategoryById db item.month_category with
    | none => cloneExpensesLoopF mbId newMonth ntc fuel db rest
    | some itemCat =>
      match dictGet ntc itemCat.name with
      | none => cloneExpensesLoopF mbId newMonth ntc fuel db rest
      | some cat =>
        match fuel with
        | 0 => Except.error db
        | fuel' + 1 =>
          let e : MonthExpense :=
            { id := db.nextId, month_budget := some mbId,
              month_category := cat.id, name := item.name,
              amount := item.amount, expense_type := item.expense_type,
              date := if item.expense_type = ExpenseType.Variable then
                  some newMonth
                else none,
              notes := item.notes, enabled := item.enabled,
              template := item.template }
          let db' : DB :=
            { db with expenses := db.expenses ++ [e],
                      nextId := db.nextId + 1 }
          cloneExpensesLoopF mbId newMonth ntc fuel' db' rest

/-- Attempt one row write under a fuel budget: with fuel left, commit the
post-write state `db'` and consume one unit; with none left, raise carrying
the pre-write state `db`. -/
def tryWrite (fuel : Nat) (db db' : DB) : Except DB (Nat × DB) :=
  match fuel with
  | 0 => Except.error db
  | f + 1 => Except.ok (f, db')

/-- Fault-injected template-seeding loop (a new category plus its expense
are two separate writes). -/
def seedLoopF (mbId : Nat) : Nat → DB → List RecurringExpenseTemplate →
    List (String × MonthCategory) → Except DB (Nat × DB)
  | fuel, db, [], _ => Except.ok (fuel, db)
  | fuel, db, t :: rest, ntc =>
    match dictGet ntc t.default_category_name with
    | some cat =>
      let e : MonthExpense :=
        { id := db.nextId, month_budget := some mbId,
          month_category := cat.id, name := t.name,
          amount := t.default_amount, expense_type := ExpenseType.Recurring,
          date := none, notes := "", enabled := true, template := some t.id }
      match tryWrite fuel db
          { db with expenses := db.expenses ++ [e],
                    nextId := db.nextId + 1 } with
      | Except.error d => Except.error d
      | Except.ok (fuel', db') => seedLoopF mbId fuel' db' rest ntc
    | none =>
      let max_order := aggMaxSortOrder db mbId
      let cat : MonthCategory :=
        ⟨db.nextId, mbId, t.default_category_name, max_order + 10⟩
      match tryWrite fuel db
          { db with categories := db.categories ++ [cat],
                    nextId := db.nextId + 1 } with
      | Except.error d => Except.error d
      | Except.ok (fuel', db') =>
        let e : MonthExpense :=
          { id := db'.nextId, month_budget := some mbId,
            month_category := cat.id, name := t.name,
            amount := t.default_amount,
            expense_type := ExpenseType.Recurring,
            date := none, notes := "", enabled := true,
            template := some t.id }
        match tryWrite fuel' db'
            { db' with expenses := db'.expenses ++ [e],
                       nextId := db'.nextId + 1 } with
        | Except.error d => Except.error d
        | Except.ok (fuel'', db'') =>
          seedLoopF mbId fuel'' db'' rest
            (ntc ++ [(t.default_category_name, cat)])

/-- Fault-injected body of `create_month_with_defaults`: at most `fuel` row
writes succeed; an exhausted write raises with the partial state. -/
def create_month_faulty (fuel : Nat) (db : DB) (month : Date)
    (user : Option Nat) (carry_forward_income : Bool) :
    Except DB (MonthBudget × DB) :=
  let m := firstOfMonth month
  match findMonth db user m with
  | some mb => Except.ok (mb, db)
  | none =>
    match fuel with
    | 0 => Except.error db
    | f1 + 1 =>
      let mb : MonthBudget := ⟨db.nextId, user, m, 0, MonthStatus.Open⟩
      let db1 : DB :=
        { db with months := db.months ++ [mb], nextId := db.nextId + 1 }
      match latestBefore db1 user m with
      | some prev =>
        let step2 : Except DB (Nat × DB × MonthBudget) :=
          if carry_forward_income then
            match f1 with
            | 0 => Except.error db1
            | f2 + 1 =>
              let mb2 := { mb with net_income := prev.net_income }
              let months2 :=
                db1.months.map (fun x => if x.id = mb.id then mb2 else x)
              Except.ok (f2, { db1 with months := months2 }, mb2)
          else Except.ok (f1, db1, mb)
        match step2 with
        | Except.error d => Except.error d
        | Except.ok (f2, db2, mb2) =>
          let prevCats := sortCats (db2.categories.filter
            (fun c => decide (c.month_budget = prev.id)))
          match cloneCatsLoopF mb.id f2 db2 prevCats [] with
          | Except.error d => Except.error d
          | Except.ok (f3, db3, ntc) =>
            let prevExps := db3.expenses.filter
              (fun e => decide (e.month_budget = some prev.id))
            match cloneExpensesLoopF mb.id m ntc f3 db3 prevExps with
            | Except.error d => Except.error d
            | Except.ok (_, db4) => Except.ok (mb2, db4)
      | none =>
        let temps := sortTemplates (db1.templates.filter
          (fun t => t.active && decide (t.user = user)))
        match seedLoopF mb.id f1 db1 temps [] with
        | Except.error d => Except.error d
        | Except.ok (_, db2) => Except.ok (mb, db2)

/-- `@transaction.atomic` semantics around the faulty body: a raise rolls
every uncommitted write back, leaving the caller's state untouched. -/
def create_month_atomic (fuel : Nat) (db : DB) (month : Date)
    (user : Option Nat) (carry_forward_income : Bool) :
    Option MonthBudget × DB :=
  match create_month_faulty fuel db month user carry_forward_income with
  | Except.ok (mb, db') => (some mb, db')
  | Except.error _ => (none, db)

/-- State observed by a caller after a guarded write: the new state on
success, the caller's unchanged state on rejection. -/
def commit (db : DB) (r : Except WriteError DB) : DB :=
  match r with
  | Except.ok d => d
  | Except.error _ => db

/-- Closed form of the rows `cloneCatsLoop` appends: one independent copy
per source category, with ids numbered consecutively from `start`. -/
def cloneCatsPure (start mbId : Nat) : List MonthCategory → List MonthCategory
  | [] => []
  | c :: rest => ⟨start, mbId, c.name, c.sort_order⟩ :: cloneCatsPure (start + 1) mbId rest

/-- Whether the expense-cloning loop copies an item: its category row exists
and that category's name was cloned into `name_to_cat`. -/
def keepB (cats : List MonthCategory) (ntc : List (String × MonthCategory))
    (e : MonthExpense) : Bool :=
  ((findCat cats e.month_category).bind (fun c => dictGet ntc c.name)).isSome

/-- Closed form of the rows `cloneExpensesLoop` appends. -/
def cloneExpensesPure (cats : List MonthCategory)
    (ntc : List (String × MonthCategory)) (mbId : Nat) (newMonth : Date) :
    Nat → List MonthExpense → List MonthExpense
  | _, [] => []
  | start, item :: rest =>
    match (findCat cats item.month_category).bind (fun c => dictGet ntc c.name) with
    | none => cloneExpensesPure cats ntc mbId newMonth start rest
    | some cat =>
      { id := start, month_budget := some mbId, month_category := cat.id,
        name := item.name, amount := item.amount,
        expense_type := item.expense_type,
        date := if item.expense_type = ExpenseType.Variable then
            some newMonth
          else none,
        notes := item.notes, enabled := item.enabled,
        template := item.template } ::
        cloneExpensesPure cats ntc mbId newMonth (start + 1) rest

/-- Specification of which expenses the carry-forward copies: the expense's
denormalized month reference equals the prior month (category membership is
not consulted for selection), and its category's name occurs among the prior
month's category names. -/
def carriesOver (db : DB) (prevId : Nat) (e : MonthExpense) : Bool :=
  decide (e.month_budget = some prevId) &&
    (match findCat db.categories e.month_category with
     | some c => decide (c.name ∈ (db.categories.filter
         (fun c2 => decide (c2.month_budget = prevId))).map (fun c2 => c2.name))
     | none => false)

/-- Append a name unless it has been seen already. -/
def seenInsert (l : List String) (a : String) : List String :=
  if a ∈ l then l else l ++ [a]

/-- The distinct names of a list in first-encounter order. -/
def encounterOrder (names : List String) : List String :=
  names.foldl seenInsert []

/-- Sum of the actual day counts of `j` consecutive months starting at
month `(y, m)`. -/
def cumLen (y m : Nat) : Nat → Nat
  | 0 => 0
  | j + 1 => daysInMonth y m + cumLen (monthStep (y, m)).1 (monthStep (y, m)).2 j

/-- Year-independent lower bound on a month's day count (28 for February). -/
def baseLen (m : Nat) : Nat :=
  if m = 2 then 28
  else if m = 4 ∨ m = 6 ∨ m = 9 ∨ m = 11 then 30
  else 31

/-- Month-number successor ignoring the year. -/
def mstep (m : Nat) : Nat := if m = 12 then 1 else m + 1

/-- Sum of the `baseLen` bounds of `j` consecutive months starting at `m`:
a year-independent lower bound on `cumLen`. -/
def minCum (m : Nat) : Nat → Nat
  | 0 => 0
  | j + 1 => baseLen m + minCum (mstep m) j

/-- An empty relational state. -/
def emptyDB : DB := ⟨[], [], [], [], [], 0⟩

/-- Witness state: month 0 (January 2024, closed, income 100) with one
category, one Recurring expense, one Variable expense and one override. -/
def dbW : DB :=
  { templates := [⟨6, some 1, "Rent", 800, "Housing", "", true⟩],
    months := [⟨0, some 1, ⟨2024, 1, 1⟩, 100, MonthStatus.Closed⟩],
    categories := [⟨1, 0, "Bills", 10⟩],
    expenses :=
      [⟨2, some 0, 1, "Internet", 50, ExpenseType.Recurring, none, "", true, none⟩,
       ⟨3, some 0, 1, "Gift", 20, ExpenseType.Variable, some ⟨2024, 1, 10⟩, "n", true, none⟩],
    overrides := [⟨4, 0, 1, 42⟩],
    nextId := 7 }

/-- Witness state: an open prior month (January 2024, income 2000) with one
category and two expenses, ready to be carried forward into February. -/
def dbPrior : DB :=
  { templates := [],
    months := [⟨0, some 1, ⟨2024, 1, 1⟩, 2000, MonthStatus.Open⟩],
    categories := [⟨1, 0, "Bills", 10⟩],
    expenses :=
      [⟨2, some 0, 1, "Internet", 50, ExpenseType.Recurring, none, "", true, none⟩,
       ⟨3, some 0, 1, "Gift", 20, ExpenseType.Variable, some ⟨2024, 1, 10⟩, "n", true, none⟩],
    overrides := [],
    nextId := 4 }

/-- Witness state: no months yet, two active templates sharing a category
name plus one inactive template. -/
def dbSeed : DB :=
  { templates :=
      [⟨0, some 1, "Rent", 800, "Housing", "", true⟩,
       ⟨1, some 1, "Power", 60, "Utilities", "", true⟩,
       ⟨2, some 1, "Water", 30, "Utilities", "", true⟩,
       ⟨3, some 1, "Club", 99, "Fun", "", false⟩],
    months := [], categories := [], expenses := [], overrides := [],
    nextId := 4 }

/-- Witness state for the trailing average: two history months of Variable
spending in category "Food" (totals 30 then 50) before March 2024. -/
def dbHist : DB :=
  { templates := [],
    months :=
      [⟨0, some 1, ⟨2024, 1, 1⟩, 0, MonthStatus.Open⟩,
       ⟨1, some 1, ⟨2024, 2, 1⟩, 0, MonthStatus.Open⟩],
    categories := [⟨2, 0, "Food", 10⟩, ⟨3, 1, "Food", 10⟩],
    expenses :=
      [⟨4, some 0, 2, "Shop", 10, ExpenseType.Variable, some ⟨2024, 1, 3⟩, "", true, none⟩,
       ⟨5, some 0, 2, "Shop", 20, ExpenseType.Variable, some ⟨2024, 1, 9⟩, "", true, none⟩,
       ⟨6, some 1, 3, "Shop", 50, ExpenseType.Variable, some ⟨2024, 2, 4⟩, "", true, none⟩],
    overrides := [],
    nextId := 7 }

/-! Supporting lemmas. -/

theorem aggSum_getD (l : List ℚ) : (aggSum l).getD 0 = l.sum := by
  cases l <;> simp [aggSum]

theorem pyOr_zero (x : ℚ) : pyOr x 0 = x := by
  unfold pyOr
  split <;> simp_all

/-! Claim C5: aggregation totals. -/

/-- C5. `total_recurring` is the sum of the amounts of the month's enabled
Recurring expenses, `total_variable` the sum over all of its Variable
expenses (no `enabled` filter), `total_expenses` their sum, and `balance`
the net income minus `total_expenses`; a sum over zero matching rows is
exactly `0` rather than the SQL `NULL` the aggregate produces. -/
theorem month_totals (db : DB) (mb : MonthBudget) :
    total_recurring db mb =
      ((db.expenses.filter (fun e =>
        decide (e.month_budget = some mb.id) && e.enabled &&
          decide (e.expense_type = ExpenseType.Recurring))).map
        (fun e => e.amount)).sum ∧
    total_variable db mb =
      ((db.expenses.filter (fun e =>
        decide (e.month_budget = some mb.id) &&
          decide (e.expense_type = ExpenseType.Variable))).map
        (fun e => e.amount)).sum ∧
    total_expenses db mb = total_recurring db mb + total_variable db mb ∧
    balance db mb = mb.net_income - total_expenses db mb ∧
    (db.expenses.filter (fun e =>
        decide (e.month_budget = some mb.id) && e.enabled &&
          decide (e.expense_type = ExpenseType.Recurring)) = [] →
      total_recurring db mb = 0) ∧
    (db.expenses.filter (fun e =>
        decide (e.month_budget = some mb.id) &&
          decide (e.expense_type = ExpenseType.Variable)) = [] →
      total_variable db mb = 0) := by
  refine ⟨aggSum_getD _, aggSum_getD _, ?_, ?_, ?_, ?_⟩
  · show pyOr (total_recurring db mb) 0 + pyOr (total_variable db mb) 0 = _
    rw [pyOr_zero, pyOr_zero]
  · show pyOr mb.net_income 0 - total_expenses db mb = _
    rw [pyOr_zero]
  · intro h
    show (aggSum _).getD 0 = 0
    rw [aggSum_getD, h]
    simp
  · intro h
    show (aggSum _).getD 0 = 0
    rw [aggSum_getD, h]
    simp

/-- C5 witness: the spec's worked example (income 1000, one Recurring 600,
Variable 50 + 30). -/
def dbTotals : DB :=
  { templates := [],
    months := [⟨0, some 1, ⟨2024, 1, 1⟩, 1000, MonthStatus.Open⟩],
    categories := [⟨1, 0, "General", 0⟩],
    expenses :=
      [⟨2, some 0, 1, "Rent", 600, ExpenseType.Recurring, none, "", true, none⟩,
       ⟨3, some 0, 1, "Food", 50, ExpenseType.Variable, some ⟨2024, 1, 2⟩, "", true, none⟩,
       ⟨4, some 0, 1, "Gas", 30, ExpenseType.Variable, some ⟨2024, 1, 3⟩, "", true, none⟩],
    overrides := [],
    nextId := 5 }

/-- C5 witness: the totals equations evaluated on the spec's worked example. -/
theorem month_totals_witness :
    total_recurring dbTotals ⟨0, some 1, ⟨2024, 1, 1⟩, 1000, MonthStatus.Open⟩ = 600 ∧
    total_variable dbTotals ⟨0, some 1, ⟨2024, 1, 1⟩, 1000, MonthStatus.Open⟩ = 80 ∧
    total_expenses dbTotals ⟨0, some 1, ⟨2024, 1, 1⟩, 1000, MonthStatus.Open⟩ = 680 ∧
    balance dbTotals ⟨0, some 1, ⟨2024, 1, 1⟩, 1000, MonthStatus.Open⟩ = 320 := by
  obtain ⟨h1, h2, h3, h4, -, -⟩ :=
    month_totals dbTotals ⟨0, some 1, ⟨2024, 1, 1⟩, 1000, MonthStatus.Open⟩
  refine ⟨?_, ?_, ?_, ?_⟩
  · rw [h1]; simp [dbTotals, List.filter]
  · rw [h2]; simp [dbTotals, List.filter]; norm_num
  · rw [h3, h1, h2]; simp [dbTotals, List.filter]; norm_num
  · rw [h4, h3, h1, h2]; simp [dbTotals, List.filter]; norm_num

/-! Claim C3: the closed-month guard at the persistence boundary. -/

/-- C3. For each entity kind that transitively belongs to a `MonthBudget`
(expense, category, forecast override), `save` and `delete` resolve the
owning month — directly or via the category — and are rejected with
`MonthClosed` when that month is Closed, unless the admin-override flag is
supplied (in which case the plain write goes through); a rejected write
commits no change.  Likewise `MonthBudget.save` rejects a `net_income`
change on a Closed stored row.  Reads never pass through the guard. -/
theorem closed_month_guard (db : DB) (e : MonthExpense) (c : MonthCategory)
    (o : ForecastOverride) (mb prev mbE mbC mbO : MonthBudget)
    (hE : resolveExpenseMonth db e = some mbE)
    (hEc : mbE.status = MonthStatus.Closed)
    (hC : resolveCategoryMonth db c = some mbC)
    (hCc : mbC.status = MonthStatus.Closed)
    (hO : resolveOverrideMonth db o = some mbO)
    (hOc : mbO.status = MonthStatus.Closed)
    (hM : db.months.find? (fun p => decide (p.id = mb.id)) = some prev)
    (hMc : prev.status = MonthStatus.Closed)
    (hMi : mb.net_income ≠ prev.net_income) :
    saveExpense db e false = Except.error WriteError.MonthClosed ∧
    deleteExpense db e false = Except.error WriteError.MonthClosed ∧
    saveExpense db e true = Except.ok (superSaveExpense db e) ∧
    saveCategory db c false = Except.error WriteError.MonthClosed ∧
    deleteCategory db c false = Except.error WriteError.MonthClosed ∧
    saveCategory db c true = Except.ok (superSaveCategory db c) ∧
    saveOverride db o false = Except.error WriteError.MonthClosed ∧
    deleteOverride db o false = Except.error WriteError.MonthClosed ∧
    saveOverride db o true = Except.ok (superSaveOverride db o) ∧
    saveMonthBudget db mb = Except.error WriteError.MonthClosed ∧
    commit db (saveExpense db e false) = db ∧
    commit db (deleteExpense db e false) = db ∧
    commit db (saveCategory db c false) = db ∧
    commit db (deleteCategory db c false) = db ∧
    commit db (saveOverride db o false) = db ∧
    commit db (deleteOverride db o false) = db ∧
    commit db (saveMonthBudget db mb) = db := by
  have gE : guardBlocks (resolveExpenseMonth db e) false = true := by
    rw [hE]; simp [guardBlocks, hEc]
  have gC : guardBlocks (resolveCategoryMonth db c) false = true := by
    rw [hC]; simp [guardBlocks, hCc]
  have gO : guardBlocks (resolveOverrideMonth db o) false = true := by
    rw [hO]; simp [guardBlocks, hOc]
  have gE2 : guardBlocks (resolveExpenseMonth db e) true = false := by
    rw [hE]; simp [guardBlocks]
  have gC2 : guardBlocks (resolveCategoryMonth db c) true = false := by
    rw [hC]; simp [guardBlocks]
  have gO2 : guardBlocks (resolveOverrideMonth db o) true = false := by
    rw [hO]; simp [guardBlocks]
  have hMB : saveMonthBudget db mb = Except.error WriteError.MonthClosed := by
    unfold saveMonthBudget
    rw [hM]
    simp [hMc, hMi]
  refine ⟨?_, ?_, ?_, ?_, ?_, ?_, ?_, ?_, ?_, hMB, ?_, ?_, ?_, ?_, ?_, ?_, ?_⟩ <;>
    simp [saveExpense, deleteExpense, saveCategory, deleteCategory,
      saveOverride, deleteOverride, commit, gE, gC, gO, gE2, gC2, gO2, hMB]

/-- C3 witness: on the concrete closed January 2024 state, editing the
expense, category or override is rejected and commits nothing, and an
income change on the closed month is rejected. -/
theorem closed_month_guard_witness :
    saveExpense dbW ⟨2, some 0, 1, "Edited", 55, ExpenseType.Recurring, none, "", true, none⟩ false =
      Except.error WriteError.MonthClosed ∧
    saveCategory dbW ⟨1, 0, "Renamed", 10⟩ false = Except.error WriteError.MonthClosed ∧
    saveOverride dbW ⟨4, 0, 1, 7⟩ false = Except.error WriteError.MonthClosed ∧
    saveMonthBudget dbW ⟨0, some 1, ⟨2024, 1, 1⟩, 999, MonthStatus.Closed⟩ =
      Except.error WriteError.MonthClosed ∧
    commit dbW (saveExpense dbW ⟨2, some 0, 1, "Edited", 55, ExpenseType.Recurring, none, "", true, none⟩ false) = dbW := by
  obtain ⟨h1, -, -, h4, -, -, h7, -, -, h10, h11, -⟩ :=
    closed_month_guard dbW
      ⟨2, some 0, 1, "Edited", 55, ExpenseType.Recurring, none, "", true, none⟩
      ⟨1, 0, "Renamed", 10⟩ ⟨4, 0, 1, 7⟩
      ⟨0, some 1, ⟨2024, 1, 1⟩, 999, MonthStatus.Closed⟩
      ⟨0, some 1, ⟨2024, 1, 1⟩, 100, MonthStatus.Closed⟩
      ⟨0, some 1, ⟨2024, 1, 1⟩, 100, MonthStatus.Closed⟩
      ⟨0, some 1, ⟨2024, 1, 1⟩, 100, MonthStatus.Closed⟩
      ⟨0, some 1, ⟨2024, 1, 1⟩, 100, MonthStatus.Closed⟩
      (by rfl) (by rfl) (by rfl) (by rfl) (by rfl) (by rfl) (by rfl) (by rfl)
      (by norm_num)
  exact ⟨h1, h4, h7, h10, h11⟩

/-! State-shape lemmas for the lifecycle loops. -/

theorem cloneCatsLoop_eq (mbId : Nat) : ∀ (l : List MonthCategory) (db : DB)
    (ntc : List (String × MonthCategory)),
    cloneCatsLoop mbId db l ntc =
      ({ db with categories := db.categories ++ cloneCatsPure db.nextId mbId l,
                 nextId := db.nextId + l.length },
       ntc ++ (cloneCatsPure db.nextId mbId l).map (fun c => (c.name, c)))
  | [], db, ntc => by simp [cloneCatsLoop, cloneCatsPure]
  | c :: rest, db, ntc => by
    rw [cloneCatsLoop, cloneCatsLoop_eq mbId rest]
    simp only [cloneCatsPure, Prod.mk.injEq, DB.mk.injEq, List.map_cons,
      List.append_assoc, List.cons_append, List.nil_append, List.length_cons,
      true_and, and_true]
    omega

theorem cloneExpensesLoop_eq (mbId : Nat) (newMonth : Date)
    (ntc : List (String × MonthCategory)) : ∀ (items : List MonthExpense)
    (db : DB),
    cloneExpensesLoop mbId newMonth ntc db items =
      { db with
          expenses := db.expenses ++
            cloneExpensesPure db.categories ntc mbId newMonth db.nextId items,
          nextId := db.nextId +
            (items.filter (keepB db.categories ntc)).length }
  | [], db => by simp [cloneExpensesLoop, cloneExpensesPure]
  | item :: rest, db => by
    rw [cloneExpensesLoop]
    simp only [getCategoryById]
    cases hc : findCat db.categories item.month_category with
    | none =>
      rw [cloneExpensesLoop_eq mbId newMonth ntc rest]
      simp [cloneExpensesPure, keepB, hc, List.filter]
    | some itemCat =>
      simp only []
      cases hd : dictGet ntc itemCat.name with
      | none =>
        rw [cloneExpensesLoop_eq mbId newMonth ntc rest]
        simp [cloneExpensesPure, keepB, hc, hd, List.filter]
      | some cat =>
        simp only []
        rw [cloneExpensesLoop_eq mbId newMonth ntc rest]
        simp only [cloneExpensesPure, keepB, hc, hd, Option.some_bind,
          Option.isSome_some, List.filter_cons, DB.mk.injEq, true_and,
          and_true, List.append_assoc, List.cons_append, List.nil_append,
          List.length_cons, if_true]
        omega

theorem seedLoop_months (mbId : Nat) : ∀ (l : List RecurringExpenseTemplate)
    (db : DB) (ntc : List (String × MonthCategory)),
    (seedLoop mbId db l ntc).months = db.months
  | [], db, ntc => by simp [seedLoop]
  | t :: rest, db, ntc => by
    rw [seedLoop]
    cases hd : dictGet ntc t.default_category_name with
    | none => rw [seedLoop_months mbId rest]
    | some cat => rw [seedLoop_months mbId rest]

/-! Claim C1: idempotence of ensure_month. -/

theorem find_replace (p : MonthBudget → Bool) (f : MonthBudget → MonthBudget)
    (v : MonthBudget) (hv : p v = true)
    (hf : ∀ x, p x = false → f x = x ∨ f x = v) :
    ∀ l : List MonthBudget, l.find? p = none →
      ((l.map f) ++ [v]).find? p = some v
  | [], _ => by simp [List.find?, hv]
  | a :: l, h => by
    cases hpa : p a with
    | true =>
      rw [List.find?_cons_of_pos _ hpa] at h
      cases h
    | false =>
      rw [List.find?_cons_of_neg _ (by simp [hpa])] at h
      rcases hf a hpa with hfa | hfa
      · rw [List.map_cons, List.cons_append,
          List.find?_cons_of_neg _ (by simp [hfa, hpa])]
        exact find_replace p f v hv hf l h
      · rw [List.map_cons, List.cons_append,
          List.find?_cons_of_pos _ (by rw [hfa]; exact hv), hfa]

theorem create_found (db : DB) (m : Date) (u : Option Nat) (cf : Bool)
    (mb : MonthBudget) (hf : findMonth db u (firstOfMonth m) = some mb) :
    create_month_with_defaults db m u cf = (mb, db) := by
  unfold create_month_with_defaults
  simp only [hf]

theorem create_not_found (db : DB) (m : Date) (u : Option Nat) (cf : Bool)
    (hf : findMonth db u (firstOfMonth m) = none) :
    findMonth (create_month_with_defaults db m u cf).2 u (firstOfMonth m) =
      some (create_month_with_defaults db m u cf).1 := by
  unfold create_month_with_defaults
  simp only [hf]
  have hfind : db.months.find?
      (fun mb => decide (mb.user = u) && decide (mb.month = firstOfMonth m)) =
      none := hf
  set m' := firstOfMonth m with hm'
  set mb : MonthBudget := ⟨db.nextId, u, m', 0, MonthStatus.Open⟩ with hmb
  set db1 : DB :=
    { db with months := db.months ++ [mb], nextId := db.nextId + 1 } with hdb1
  cases hp : latestBefore db1 u m' with
  | none =>
    simp only [hp]
    simp only [findMonth, seedLoop_months]
    show (db.months ++ [mb]).find? _ = some mb
    have := find_replace
      (fun x => decide (x.user = u) && decide (x.month = m')) id mb
      (by simp) (fun x _ => Or.inl rfl) db.months hfind
    simpa using this
  | some prev =>
    simp only [hp]
    by_cases hcf : cf
    · simp only [hcf, if_true]
      rw [cloneExpensesLoop_eq, cloneCatsLoop_eq]
      simp only [findMonth]
      show ((db.months ++ [mb]).map _).find? _ = _
      rw [List.map_append]
      have hfmb : (fun x => if x.id = mb.id then
          { mb with net_income := prev.net_income } else x) mb =
          { mb with net_income := prev.net_income } := by simp
      simp only [List.map_cons, List.map_nil, hfmb]
      exact find_replace _ _ _ (by simp)
        (fun x _ => by
          by_cases hx : x.id = mb.id
          · right; simp [hx]
          · left; simp [hx]) db.months hfind
    · simp only [hcf, if_false]
      rw [cloneExpensesLoop_eq, cloneCatsLoop_eq]
      simp only [findMonth]
      show (db.months ++ [mb]).find? _ = some mb
      have := find_replace
        (fun x => decide (x.user = u) && decide (x.month = m')) id mb
        (by simp) (fun x _ => Or.inl rfl) db.months hfind
      simpa using this

/-- C1. Calling `create_month_with_defaults` again for the same owner and
the same normalized month returns the very `MonthBudget` the first call
returned and leaves the state untouched: no duplicate month, no new
category or expense rows, no re-cloning. -/
theorem ensure_month_idempotent (db : DB) (m1 m2 : Date) (u : Option Nat)
    (cf1 cf2 : Bool) (h : firstOfMonth m2 = firstOfMonth m1) :
    create_month_with_defaults
        (create_month_with_defaults db m1 u cf1).2 m2 u cf2 =
      ((create_month_with_defaults db m1 u cf1).1,
       (create_month_with_defaults db m1 u cf1).2) := by
  cases hf : findMonth db u (firstOfMonth m1) with
  | some mb =>
    have e1 := create_found db m1 u cf1 mb hf
    rw [e1]
    exact create_found db m2 u cf2 mb (by rw [h]; exact hf)
  | none =>
    have hfind := create_not_found db m1 u cf1 hf
    exact create_found _ m2 u cf2 _ (by rw [h]; exact hfind)

/-- C1 witness: re-running month creation on the carried-forward February
2024 state returns the same month row and the identical state. -/
theorem ensure_month_idempotent_witness :
    create_month_with_defaults
        (create_month_with_defaults dbPrior ⟨2024, 2, 14⟩ (some 1) true).2
        ⟨2024, 2, 3⟩ (some 1) true =
      ((create_month_with_defaults dbPrior ⟨2024, 2, 14⟩ (some 1) true).1,
       (create_month_with_defaults dbPrior ⟨2024, 2, 14⟩ (some 1) true).2) :=
  ensure_month_idempotent dbPrior ⟨2024, 2, 14⟩ ⟨2024, 2, 3⟩ (some 1) true true
    (by rfl)

/-! Claim C8: cloned categories are independent records. -/

theorem find?_append_some {α : Type} (p : α → Bool) (v : α) :
    ∀ (l l2 : List α), l.find? p = some v → (l ++ l2).find? p = some v
  | [], _, h => by simp [List.find?] at h
  | a :: l, l2, h => by
    cases hpa : p a with
    | true =>
      rw [List.find?_cons_of_pos _ hpa] at h
      rw [List.cons_append, List.find?_cons_of_pos _ hpa]
      exact h
    | false =>
      rw [List.find?_cons_of_neg _ (by simp [hpa])] at h
      rw [List.cons_append, List.find?_cons_of_neg _ (by simp [hpa])]
      exact find?_append_some p v l l2 h

theorem find?_map_pred {α : Type} (p : α → Bool) (f : α → α)
    (h1 : ∀ x, p (f x) = p x) (h2 : ∀ x, p x = true → f x = x) :
    ∀ l : List α, (l.map f).find? p = l.find? p
  | [] => rfl
  | a :: l => by
    cases hpa : p a with
    | true =>
      rw [List.map_cons, List.find?_cons_of_pos _ (by rw [h1]; exact hpa),
        List.find?_cons_of_pos _ hpa, h2 a hpa]
    | false =>
      rw [List.map_cons, List.find?_cons_of_neg _ (by simp [h1, hpa]),
        List.find?_cons_of_neg _ (by simp [hpa])]
      exact find?_map_pred p f h1 h2 l

theorem cloneCatsPure_mem : ∀ (l : List MonthCategory) (start mbId : Nat)
    (x : MonthCategory), x ∈ cloneCatsPure start mbId l →
      start ≤ x.id ∧ x.month_budget = mbId
  | [], _, _, x, hx => by simp [cloneCatsPure] at hx
  | c :: rest, start, mbId, x, hx => by
    rw [cloneCatsPure, List.mem_cons] at hx
    rcases hx with hx | hx
    · subst hx; exact ⟨le_refl _, rfl⟩
    · have := cloneCatsPure_mem rest (start + 1) mbId x hx
      exact ⟨by omega, this.2⟩

theorem seedLoop_cats_shape (mbId : Nat) : ∀ (l : List RecurringExpenseTemplate)
    (db : DB) (ntc : List (String × MonthCategory)),
    ∃ tail, (seedLoop mbId db l ntc).categories = db.categories ++ tail ∧
      ∀ c ∈ tail, db.nextId ≤ c.id ∧ c.month_budget = mbId
  | [], db, ntc => by simp [seedLoop]
  | t :: rest, db, ntc => by
    rw [seedLoop]
    cases hd : dictGet ntc t.default_category_name with
    | some cat =>
      obtain ⟨tail, hcats, htail⟩ := seedLoop_cats_shape mbId rest _ _
      refine ⟨tail, by simpa using hcats, fun c hc => ?_⟩
      have := htail c hc
      exact ⟨by simp at this; omega, this.2⟩
    | none =>
      obtain ⟨tail, hcats, htail⟩ := seedLoop_cats_shape mbId rest _ _
      refine ⟨⟨db.nextId, mbId, t.default_category_name,
        aggMaxSortOrder db mbId + 10⟩ :: tail, ?_, ?_⟩
      · rw [hcats]
        simp
      · intro c hc
        rcases List.mem_cons.mp hc with hc | hc
        · subst hc; exact ⟨le_refl _, rfl⟩
        · have := htail c hc
          exact ⟨by simp at this; omega, this.2⟩

theorem create_cats_shape (db : DB) (m : Date) (u : Option Nat) (cf : Bool)
    (hf : findMonth db u (firstOfMonth m) = none) :
    (create_month_with_defaults db m u cf).1.id = db.nextId ∧
    ∃ tail, (create_month_with_defaults db m u cf).2.categories =
        db.categories ++ tail ∧ ∀ c ∈ tail, db.nextId ≤ c.id := by
  unfold create_month_with_defaults
  simp only [hf]
  set m' := firstOfMonth m with hm'
  set mb : MonthBudget := ⟨db.nextId, u, m', 0, MonthStatus.Open⟩ with hmb
  set db1 : DB :=
    { db with months := db.months ++ [mb], nextId := db.nextId + 1 } with hdb1
  cases hp : latestBefore db1 u m' with
  | none =>
    simp only [hp]
    constructor
    · simp
    · obtain ⟨tail, hcats, htail⟩ := seedLoop_cats_shape mb.id
        (sortTemplates (db1.templates.filter
          (fun t => t.active && decide (t.user = u)))) db1 []
      refine ⟨tail, ?_, fun c hc => ?_⟩
      · exact hcats
      · have h1 := (htail c hc).1
        have h2 : db1.nextId = db.nextId + 1 := rfl
        omega
  | some prev =>
    simp only [hp]
    by_cases hcf : cf
    · simp only [hcf, if_true]
      rw [cloneExpensesLoop_eq, cloneCatsLoop_eq]
      constructor
      · simp
      · refine ⟨cloneCatsPure (db.nextId + 1) db.nextId
          (sortCats (db.categories.filter
            (fun c => decide (c.month_budget = prev.id)))), ?_, fun c hc => ?_⟩
        · rfl
        · have := cloneCatsPure_mem _ _ _ c hc
          omega
    · simp only [hcf, if_false]
      rw [cloneExpensesLoop_eq, cloneCatsLoop_eq]
      constructor
      · simp
      · refine ⟨cloneCatsPure (db.nextId + 1) db.nextId
          (sortCats (db.categories.filter
            (fun c => decide (c.month_budget = prev.id)))), ?_, fun c hc => ?_⟩
        · rfl
        · have := cloneCatsPure_mem _ _ _ c hc
          omega

/-- C8. Categories cloned by `create_month_with_defaults` are fresh,
independent rows: every category of the newly created month has an id
distinct from every pre-existing category, and renaming (saving) any
pre-existing category afterwards leaves the clone's stored row untouched. -/
theorem clone_snapshot_isolation (db : DB) (m : Date) (u : Option Nat)
    (cf : Bool) (hf : findMonth db u (firstOfMonth m) = none)
    (hid : ∀ c ∈ db.categories, c.id < db.nextId)
    (href : ∀ c ∈ db.categories, c.month_budget < db.nextId)
    (c' : MonthCategory)
    (hc' : getCategoryById (create_month_with_defaults db m u cf).2 c'.id =
      some c')
    (hmb' : c'.month_budget = (create_month_with_defaults db m u cf).1.id) :
    (∀ c ∈ db.categories, c.id ≠ c'.id) ∧
    (∀ c ∈ db.categories, ∀ (n : String) (ov : Bool) (db'' : DB),
      saveCategory (create_month_with_defaults db m u cf).2
          { c with name := n } ov = Except.ok db'' →
        getCategoryById db'' c'.id = some c') := by
  obtain ⟨hid1, tail, hcats, htail⟩ := create_cats_shape db m u cf hf
  have hc'mem : c' ∈ (create_month_with_defaults db m u cf).2.categories :=
    List.mem_of_find?_eq_some hc'
  have hge : db.nextId ≤ c'.id := by
    rw [hcats] at hc'mem
    rcases List.mem_append.mp hc'mem with hmem | hmem
    · have h1 := href c' hmem
      rw [hmb', hid1] at h1
      exact absurd h1 (lt_irrefl _)
    · exact htail c' hmem
  have hne : ∀ c ∈ db.categories, c.id ≠ c'.id := by
    intro c hc
    have := hid c hc
    omega
  refine ⟨hne, ?_⟩
  intro c hc n ov db'' hsave
  have hcid : ({ c with name := n } : MonthCategory).id = c.id := rfl
  unfold saveCategory at hsave
  split at hsave
  · cases hsave
  · have hdb'' : db'' = superSaveCategory
        (create_month_with_defaults db m u cf).2 { c with name := n } := by
      cases hsave; rfl
    subst hdb''
    unfold superSaveCategory
    split
    · show findCat (List.map _ _) c'.id = some c'
      unfold findCat
      have h1 : ∀ x : MonthCategory,
          (fun y : MonthCategory => decide (y.id = c'.id))
            ((fun x : MonthCategory =>
              if x.id = ({ c with name := n } : MonthCategory).id then
                { c with name := n } else x) x) =
          (fun y : MonthCategory => decide (y.id = c'.id)) x := by
        intro x
        by_cases hx : x.id = ({ c with name := n } : MonthCategory).id
        · rw [hcid] at hx
          simp [hcid, hx]
        · rw [hcid] at hx
          simp [hcid, hx]
      have h2 : ∀ x : MonthCategory,
          (fun y : MonthCategory => decide (y.id = c'.id)) x = true →
          (fun x : MonthCategory =>
            if x.id = ({ c with name := n } : MonthCategory).id then
              { c with name := n } else x) x = x := by
        intro x hpx
        have hx : x.id = c'.id := of_decide_eq_true hpx
        have hxx : x.id ≠ c.id := by
          rw [hx]
          exact fun hh => hne c hc hh.symm
        simp [hcid, hxx]
      rw [find?_map_pred _ _ h1 h2]
      exact hc'
    · show findCat (_ ++ [_]) c'.id = some c'
      exact find?_append_some _ _ _ _ hc'

/-- The state after carrying January 2024 forward into February 2024. -/
def dbFeb : DB := (create_month_with_defaults dbPrior ⟨2024, 2, 1⟩ (some 1) true).2

/-- C8 witness: the cloned "Bills" category (id 5) of February 2024 differs
from the original (id 1), and renaming the original leaves it unchanged. -/
theorem clone_snapshot_isolation_witness :
    (1 : Nat) ≠ (5 : Nat) ∧
    getCategoryById
        (commit dbFeb (saveCategory dbFeb ⟨1, 0, "Renamed", 10⟩ false)) 5 =
      some ⟨5, 4, "Bills", 10⟩ := by
  have hc' : getCategoryById
      (create_month_with_defaults dbPrior ⟨2024, 2, 1⟩ (some 1) true).2 5 =
      some ⟨5, 4, "Bills", 10⟩ := by
    simp [create_month_with_defaults, findMonth, latestBefore, Date.blt,
      firstOfMonth, sortCats, List.mergeSort, cloneCatsLoop, cloneExpensesLoop,
      dictGet, getCategoryById, findCat, dbPrior, List.filter, List.find?,
      catOrderLe]
  have h := clone_snapshot_isolation dbPrior ⟨2024, 2, 1⟩ (some 1) true
    (by rfl) (by decide) (by decide) ⟨5, 4, "Bills", 10⟩ hc'
    (by
      simp [create_month_with_defaults, findMonth, latestBefore, Date.blt,
        firstOfMonth, dbPrior, List.filter, List.find?])
  have hsv : saveCategory dbFeb ⟨1, 0, "Renamed", 10⟩ false =
      Except.ok (superSaveCategory dbFeb ⟨1, 0, "Renamed", 10⟩) := by
    have hres : resolveCategoryMonth dbFeb ⟨1, 0, "Renamed", 10⟩ =
        some ⟨0, some 1, ⟨2024, 1, 1⟩, 2000, MonthStatus.Open⟩ := by
      simp [resolveCategoryMonth, getMonthById, dbFeb,
        create_month_with_defaults, findMonth, latestBefore, Date.blt,
        firstOfMonth, sortCats, List.mergeSort, cloneCatsLoop,
        cloneExpensesLoop, dictGet, getCategoryById, findCat, dbPrior,
        List.filter, List.find?, catOrderLe]
    simp [saveCategory, hres, guardBlocks]
  refine ⟨by decide, ?_⟩
  have h2 := h.2 ⟨1, 0, "Bills", 10⟩ (by simp [dbPrior]) "Renamed" false
    (superSaveCategory dbFeb ⟨1, 0, "Renamed", 10⟩) hsv
  rw [show (saveCategory dbFeb ⟨1, 0, "Renamed", 10⟩ false) =
    Except.ok (superSaveCategory dbFeb ⟨1, 0, "Renamed", 10⟩) from hsv]
  simpa [commit] using h2

/-! Clone-characterization lemmas shared by the carry-forward claims. -/

theorem dictGet_aux (k : String) (v : MonthCategory) :
    ∀ (m : List (String × MonthCategory)) (acc : Option MonthCategory),
    m.foldl (fun acc p => if p.1 = k then some p.2 else acc) acc = some v →
      (k, v) ∈ m ∨ acc = some v
  | [], acc, h => Or.inr h
  | p :: m, acc, h => by
    rw [List.foldl_cons] at h
    rcases dictGet_aux k v m _ h with hm | hacc
    · exact Or.inl (List.mem_cons_of_mem _ hm)
    · by_cases hp : p.1 = k
      · rw [if_pos hp] at hacc
        cases hacc
        exact Or.inl (by rw [← hp]; exact List.mem_cons_self _ _)
      · rw [if_neg hp] at hacc
        exact Or.inr hacc

theorem dictGet_mem {m : List (String × MonthCategory)} {k : String}
    {v : MonthCategory} (h : dictGet m k = some v) : (k, v) ∈ m := by
  rcases dictGet_aux k v m none h with hm | hacc
  · exact hm
  · cases hacc

theorem dictGet_isSome_of_mem {m : List (String × MonthCategory)} {k : String}
    {v : MonthCategory} (h : (k, v) ∈ m) : (dictGet m k).isSome := by
  have main : ∀ (l : List (String × MonthCategory)) (acc : Option MonthCategory),
      ((k, v) ∈ l ∨ acc.isSome) →
        (l.foldl (fun acc p => if p.1 = k then some p.2 else acc) acc).isSome := by
    intro l
    induction l with
    | nil =>
      intro acc h
      rcases h with h | h
      · cases h
      · exact h
    | cons p m ih =>
      intro acc h
      rw [List.foldl_cons]
      apply ih
      rcases h with h | h
      · rcases List.mem_cons.mp h with h | h
        · right
          rw [← h]
          simp
        · exact Or.inl h
      · right
        by_cases hp : p.1 = k
        · simp [hp]
        · simpa [hp] using h
  exact main m none (Or.inl h)

theorem cloneCatsPure_forall₂ (mbId : Nat) : ∀ (l : List MonthCategory)
    (start : Nat),
    List.Forall₂ (fun c c' => c'.month_budget = mbId ∧ c'.name = c.name ∧
      c'.sort_order = c.sort_order) l (cloneCatsPure start mbId l)
  | [], _ => List.Forall₂.nil
  | c :: rest, start =>
    List.Forall₂.cons ⟨rfl, rfl, rfl⟩ (cloneCatsPure_forall₂ mbId rest (start + 1))

theorem cloneCatsPure_names (mbId : Nat) : ∀ (l : List MonthCategory)
    (start : Nat),
    (cloneCatsPure start mbId l).map (fun c => c.name) =
      l.map (fun c => c.name)
  | [], _ => rfl
  | c :: rest, start => by
    rw [cloneCatsPure, List.map_cons, List.map_cons,
      cloneCatsPure_names mbId rest (start + 1)]

theorem cloneCatsPure_find (mbId : Nat) : ∀ (l : List MonthCategory)
    (start : Nat) (cat : MonthCategory), cat ∈ cloneCatsPure start mbId l →
      findCat (cloneCatsPure start mbId l) cat.id = some cat
  | [], _, cat, h => by simp [cloneCatsPure] at h
  | c :: rest, start, cat, h => by
    rw [cloneCatsPure] at h ⊢
    rcases List.mem_cons.mp h with h | h
    · subst h
      unfold findCat
      rw [List.find?_cons_of_pos _ (by simp)]
    · have hge := (cloneCatsPure_mem rest (start + 1) mbId cat h).1
      unfold findCat
      rw [List.find?_cons_of_neg _ (by simp; omega)]
      exact cloneCatsPure_find mbId rest (start + 1) cat h

theorem find?_append_none {α : Type} (p : α → Bool) (l l2 : List α)
    (h : l.find? p = none) : (l ++ l2).find? p = l2.find? p := by
  induction l with
  | nil => simp
  | cons a l ih =>
    rw [List.find?_cons] at h
    split at h
    · cases h
    · rename_i ha
      have ha' : p a = false := by
        cases hpa : p a
        · rfl
        · exact absurd hpa (by simpa using ha)
      rw [List.cons_append, List.find?_cons_of_neg _ (by simp [ha'])]
      exact ih h

theorem cloneExpensesPure_mb (cats : List MonthCategory)
    (ntc : List (String × MonthCategory)) (mbId : Nat) (nm : Date) :
    ∀ (items : List MonthExpense) (start : Nat) (e : MonthExpense),
    e ∈ cloneExpensesPure cats ntc mbId nm start items →
      e.month_budget = some mbId
  | [], _, e, h => by simp [cloneExpensesPure] at h
  | item :: rest, start, e, h => by
    rw [cloneExpensesPure] at h
    cases hb : (findCat cats item.month_category).bind
        (fun c => dictGet ntc c.name) with
    | none =>
      rw [hb] at h
      exact cloneExpensesPure_mb cats ntc mbId nm rest start e h
    | some cat =>
      rw [hb] at h
      rcases List.mem_cons.mp h with h | h
      · subst h; rfl
      · exact cloneExpensesPure_mb cats ntc mbId nm rest (start + 1) e h

theorem cloneExpensesPure_forall₂ (cats : List MonthCategory)
    (ntc : List (String × MonthCategory)) (mbId : Nat) (nm : Date) :
    ∀ (items : List MonthExpense) (start : Nat),
    List.Forall₂ (fun e e' =>
      ∃ c cat, findCat cats e.month_category = some c ∧
        dictGet ntc c.name = some cat ∧
        e'.month_budget = some mbId ∧ e'.month_category = cat.id ∧
        e'.name = e.name ∧ e'.amount = e.amount ∧
        e'.expense_type = e.expense_type ∧
        e'.date = (if e.expense_type = ExpenseType.Variable then some nm
          else none) ∧
        e'.notes = e.notes ∧ e'.enabled = e.enabled ∧
        e'.template = e.template)
      (items.filter (keepB cats ntc))
      (cloneExpensesPure cats ntc mbId nm start items)
  | [], _ => by
    rw [cloneExpensesPure]
    simp
  | item :: rest, start => by
    rw [cloneExpensesPure, List.filter_cons]
    cases hc : findCat cats item.month_category with
    | none =>
      have hk : keepB cats ntc item = false := by
        simp [keepB, hc]
      rw [hk]
      simp only [Bool.false_eq_true, if_false, hc, Option.none_bind]
      exact cloneExpensesPure_forall₂ cats ntc mbId nm rest start
    | some c =>
      cases hd : dictGet ntc c.name with
      | none =>
        have hk : keepB cats ntc item = false := by
          simp [keepB, hc, hd]
        rw [hk]
        simp only [Bool.false_eq_true, if_false, hc, Option.some_bind, hd]
        exact cloneExpensesPure_forall₂ cats ntc mbId nm rest start
      | some cat =>
        have hk : keepB cats ntc item = true := by
          simp [keepB, hc, hd]
        rw [hk]
        simp only [if_true, hc, Option.some_bind, hd]
        exact List.Forall₂.cons
          ⟨c, cat, hc, hd, rfl, rfl, rfl, rfl, rfl, rfl, rfl, rfl, rfl⟩
          (cloneExpensesPure_forall₂ cats ntc mbId nm rest (start + 1))

theorem Forall₂_imp_mem {α β : Type} {R S : α → β → Prop} :
    ∀ {l1 : List α} {l2 : List β}, List.Forall₂ R l1 l2 →
      (∀ a b, a ∈ l1 → R a b → S a b) → List.Forall₂ S l1 l2
  | [], [], _, _ => List.Forall₂.nil
  | a :: l1, b :: l2, h, himp => by
    rcases List.forall₂_cons.mp h with ⟨hab, hrest⟩
    exact List.Forall₂.cons (himp a b (List.mem_cons_self _ _) hab)
      (Forall₂_imp_mem hrest
        (fun x y hx => himp x y (List.mem_cons_of_mem _ hx)))

theorem blt_irrefl (a : Date) : Date.blt a a = false := by
  simp [Date.blt]

theorem dateGe_trans (a b c : Date) (h1 : dateGe a b = true)
    (h2 : dateGe b c = true) : dateGe a c = true := by
  obtain ⟨y1, m1, d1⟩ := a
  obtain ⟨y2, m2, d2⟩ := b
  obtain ⟨y3, m3, d3⟩ := c
  simp [dateGe, Date.ble, Date.blt, Date.mk.injEq] at h1 h2 ⊢
  omega

theorem dateGe_total (a b : Date) : (dateGe a b || dateGe b a) = true := by
  obtain ⟨y1, m1, d1⟩ := a
  obtain ⟨y2, m2, d2⟩ := b
  simp [dateGe, Date.ble, Date.blt, Date.mk.injEq]
  omega

theorem ble_antisym (a b : Date) (h1 : Date.ble a b = true) (h2 : a ≠ b) :
    Date.blt a b = true := by
  obtain ⟨y1, m1, d1⟩ := a
  obtain ⟨y2, m2, d2⟩ := b
  simp [Date.ble, Date.blt, Date.mk.injEq] at h1 h2 ⊢
  omega

/-- The `order_by`/slice step of `trailing_average_variable`: sorting the
distinct months of `rows` descending and taking the first `window` yields
the `min window n` most recent distinct months, in strictly descending
order. -/
theorem topWindow (rows : List (Date × ℚ)) (window : Nat) :
    ∃ ms : List Date, ms.Nodup ∧
      ms.Pairwise (fun a b => Date.blt b a = true) ∧
      (∀ d ∈ ms, d ∈ rows.map Prod.fst) ∧
      ms.length = min window (rows.map Prod.fst).dedup.length ∧
      (∀ d ∈ rows.map Prod.fst, d ∉ ms → ∀ d' ∈ ms, Date.blt d d' = true) ∧
      ms = ((rows.map Prod.fst).dedup.mergeSort dateGe).take window := by
  set L := (rows.map Prod.fst).dedup with hL
  set S := L.mergeSort dateGe with hS
  have hLnd : L.Nodup := List.nodup_dedup _
  have hSnd : S.Nodup := ((List.mergeSort_perm L dateGe).nodup_iff).mpr hLnd
  have hsorted : S.Pairwise (fun a b => dateGe a b = true) :=
    List.sorted_mergeSort dateGe_trans dateGe_total L
  have hpair : S.Pairwise (fun a b => dateGe a b = true ∧ a ≠ b) :=
    hsorted.and hSnd
  have hstrict : S.Pairwise (fun a b => Date.blt b a = true) :=
    hpair.imp (fun h => ble_antisym _ _ h.1 (fun he => h.2 he.symm))
  refine ⟨S.take window, ?_, ?_, ?_, ?_, ?_, rfl⟩
  · exact List.Nodup.sublist (List.take_sublist _ _) hSnd
  · exact List.Pairwise.sublist (List.take_sublist _ _) hstrict
  · intro d hd
    have h1 : d ∈ S := (List.take_sublist window S).subset hd
    rw [hS] at h1
    have h2 : d ∈ L := List.mem_mergeSort.mp h1
    rw [hL] at h2
    exact List.mem_dedup.mp h2
  · rw [List.length_take, hS, List.length_mergeSort]
  · intro d hd hdn d' hd'
    have hdS : d ∈ S := by
      rw [hS]
      exact List.mem_mergeSort.mpr (List.mem_dedup.mpr hd)
    have hdrop : d ∈ S.drop window := by
      have hmem : d ∈ S.take window ++ S.drop window := by
        rw [List.take_append_drop]
        exact hdS
      rcases List.mem_append.mp hmem with h | h
      · exact absurd h hdn
      · exact h
    have hp2 : (S.take window ++ S.drop window).Pairwise
        (fun a b => dateGe a b = true ∧ a ≠ b) := by
      rw [List.take_append_drop]
      exact hpair
    have hcross := (List.pairwise_append.mp hp2).2.2 d' hd' d hdrop
    exact ble_antisym d d' hcross.1 (fun he => hcross.2 he.symm)

theorem latestBefore_append (db : DB) (u : Option Nat) (m' : Date)
    (mb : MonthBudget) (nid : Nat) (hm : mb.month = m') :
    latestBefore { db with months := db.months ++ [mb], nextId := nid } u m' =
      latestBefore db u m' := by
  unfold latestBefore
  have : ({ db with months := db.months ++ [mb], nextId := nid } : DB).months =
      db.months ++ [mb] := rfl
  rw [this, List.filter_append]
  have hmb : (db.months ++ [mb]).filter
      (fun x => decide (x.user = u) && Date.blt x.month m') =
      db.months.filter (fun x => decide (x.user = u) && Date.blt x.month m') := by
    rw [List.filter_append]
    simp [List.filter, hm, blt_irrefl]
  rw [List.filter_append] at hmb
  rw [hmb]

theorem clone_phase (base db2 : DB) (mbId : Nat) (m' : Date) (prevId : Nat)
    (h2c : db2.categories = base.categories)
    (h2e : db2.expenses = base.expenses)
    (h2n : db2.nextId = base.nextId + 1)
    (hcatid : ∀ c ∈ base.categories, c.id < base.nextId)
    (hcatfresh : ∀ c ∈ base.categories, c.month_budget ≠ mbId)
    (hexpfresh : ∀ e ∈ base.expenses, e.month_budget ≠ some mbId)
    (hexists : ∀ e ∈ base.expenses, e.month_budget = some prevId →
      ∃ c, findCat base.categories e.month_category = some c) :
    List.Forall₂ (fun c c' => c'.month_budget = mbId ∧ c'.name = c.name ∧
        c'.sort_order = c.sort_order)
      (sortCats (db2.categories.filter
        (fun c => decide (c.month_budget = prevId))))
      ((cloneExpensesLoop mbId m'
          (cloneCatsLoop mbId db2 (sortCats (db2.categories.filter
            (fun c => decide (c.month_budget = prevId)))) []).2
          (cloneCatsLoop mbId db2 (sortCats (db2.categories.filter
            (fun c => decide (c.month_budget = prevId)))) []).1
          ((cloneCatsLoop mbId db2 (sortCats (db2.categories.filter
            (fun c => decide (c.month_budget = prevId)))) []).1.expenses.filter
            (fun e => decide (e.month_budget = some prevId)))).categories.filter
        (fun c => decide (c.month_budget = mbId))) ∧
    List.Forall₂ (fun e e' =>
        e'.month_budget = some mbId ∧ e'.name = e.name ∧
        e'.amount = e.amount ∧ e'.expense_type = e.expense_type ∧
        e'.notes = e.notes ∧ e'.enabled = e.enabled ∧
        e'.template = e.template ∧
        e'.date = (if e.expense_type = ExpenseType.Variable then some m'
          else none) ∧
        ∃ c c', findCat base.categories e.month_category = some c ∧
          findCat (cloneExpensesLoop mbId m'
            (cloneCatsLoop mbId db2 (sortCats (db2.categories.filter
              (fun c2 => decide (c2.month_budget = prevId)))) []).2
            (cloneCatsLoop mbId db2 (sortCats (db2.categories.filter
              (fun c2 => decide (c2.month_budget = prevId)))) []).1
            ((cloneCatsLoop mbId db2 (sortCats (db2.categories.filter
              (fun c2 => decide (c2.month_budget = prevId)))) []).1.expenses.filter
              (fun e2 => decide (e2.month_budget = some prevId)))).categories
            e'.month_category = some c' ∧
          c'.month_budget = mbId ∧ c'.name = c.name)
      (base.expenses.filter (carriesOver base prevId))
      ((cloneExpensesLoop mbId m'
          (cloneCatsLoop mbId db2 (sortCats (db2.categories.filter
            (fun c => decide (c.month_budget = prevId)))) []).2
          (cloneCatsLoop mbId db2 (sortCats (db2.categories.filter
            (fun c => decide (c.month_budget = prevId)))) []).1
          ((cloneCatsLoop mbId db2 (sortCats (db2.categories.filter
            (fun c => decide (c.month_budget = prevId)))) []).1.expenses.filter
            (fun e => decide (e.month_budget = some prevId)))).expenses.filter
        (fun e => decide (e.month_budget = some mbId))) := by
  set L := sortCats (db2.categories.filter
    (fun c => decide (c.month_budget = prevId))) with hL
  rw [cloneCatsLoop_eq]
  simp only [List.nil_append]
  rw [cloneExpensesLoop_eq]
  simp only [List.nil_append]
  set T := cloneCatsPure db2.nextId mbId L with hT
  set ntc := T.map (fun c => (c.name, c)) with hntc
  have hTmem : ∀ x ∈ T, db2.nextId ≤ x.id ∧ x.month_budget = mbId :=
    fun x hx => cloneCatsPure_mem L db2.nextId mbId x hx
  have hCatsEq : db2.categories ++ T = base.categories ++ T := by rw [h2c]
  have hPrevFilter : db2.expenses.filter
      (fun e => decide (e.month_budget = some prevId)) =
      base.expenses.filter (fun e => decide (e.month_budget = some prevId)) := by
    rw [h2e]
  -- name-membership bridge between name_to_cat and the prior month's names
  have hnamesT : T.map (fun c => c.name) = L.map (fun c => c.name) :=
    cloneCatsPure_names mbId L db2.nextId
  have hnameIff : ∀ nm : String,
      (nm ∈ (base.categories.filter
        (fun c2 => decide (c2.month_budget = prevId))).map (fun c2 => c2.name)) ↔
      nm ∈ T.map (fun c => c.name) := by
    intro nm
    rw [hnamesT, hL, h2c]
    constructor
    · intro h
      rcases List.mem_map.mp h with ⟨c, hc, hcn⟩
      exact List.mem_map.mpr ⟨c,
        ((List.mergeSort_perm _ catOrderLe).mem_iff).mpr hc, hcn⟩
    · intro h
      rcases List.mem_map.mp h with ⟨c, hc, hcn⟩
      exact List.mem_map.mpr ⟨c,
        ((List.mergeSort_perm _ catOrderLe).mem_iff).mp hc, hcn⟩
  have hdictIff : ∀ nm : String,
      (dictGet ntc nm).isSome = true ↔ nm ∈ T.map (fun c => c.name) := by
    intro nm
    constructor
    · intro h
      rcases Option.isSome_iff_exists.mp h with ⟨cat, hcat⟩
      have hpair := dictGet_mem hcat
      rw [hntc] at hpair
      rcases List.mem_map.mp hpair with ⟨x, hx, hxe⟩
      have hx1 : x.name = nm := congrArg Prod.fst hxe
      exact List.mem_map.mpr ⟨x, hx, hx1⟩
    · intro h
      rcases List.mem_map.mp h with ⟨x, hx, hxn⟩
      have hpair : (nm, x) ∈ ntc := by
        rw [hntc]
        exact List.mem_map.mpr ⟨x, hx, by rw [hxn]⟩
      exact dictGet_isSome_of_mem hpair
  constructor
  · -- categories of the new month are exactly the clones, in order
    show List.Forall₂ _ L ((db2.categories ++ T).filter _)
    rw [List.filter_append]
    have h1 : db2.categories.filter (fun c => decide (c.month_budget = mbId)) =
        [] := by
      rw [List.filter_eq_nil_iff, h2c]
      intro c hc
      simp [hcatfresh c hc]
    have h2 : T.filter (fun c => decide (c.month_budget = mbId)) = T := by
      rw [List.filter_eq_self]
      intro c hc
      simp [(hTmem c hc).2]
    rw [h1, h2, List.nil_append]
    exact cloneCatsPure_forall₂ mbId L db2.nextId
  · -- expenses of the new month are exactly the clones of carried-over items
    show List.Forall₂ _ _ ((db2.expenses ++ _).filter _)
    rw [List.filter_append]
    set E := cloneExpensesPure (db2.categories ++ T) ntc mbId m'
      (db2.nextId + L.length)
      (db2.expenses.filter (fun e => decide (e.month_budget = some prevId)))
      with hE
    have h1 : db2.expenses.filter
        (fun e => decide (e.month_budget = some mbId)) = [] := by
      rw [List.filter_eq_nil_iff, h2e]
      intro e he
      simp [hexpfresh e he]
    have h2 : E.filter (fun e => decide (e.month_budget = some mbId)) = E := by
      rw [List.filter_eq_self]
      intro e he
      rw [hE] at he
      simp [cloneExpensesPure_mb _ _ _ _ _ _ e he]
    rw [h1, h2, List.nil_append]
    rw [hE, hCatsEq, hPrevFilter]
    have hF := cloneExpensesPure_forall₂ (base.categories ++ T) ntc mbId m'
      (base.expenses.filter (fun e => decide (e.month_budget = some prevId)))
      (db2.nextId + L.length)
    -- the kept sub-list is exactly the carriesOver sub-list
    have hkeep : (base.expenses.filter
        (fun e => decide (e.month_budget = some prevId))).filter
        (keepB (base.categories ++ T) ntc) =
        base.expenses.filter (carriesOver base prevId) := by
      rw [List.filter_filter]
      apply List.filter_congr
      intro e he
      unfold carriesOver
      cases hQ : (decide (e.month_budget = some prevId) : Bool) with
      | false => simp
      | true =>
        simp only [Bool.and_true, Bool.true_and]
        have hQ' : e.month_budget = some prevId := of_decide_eq_true hQ
        rcases hexists e he hQ' with ⟨c, hc⟩
        have hcApp : findCat (base.categories ++ T) e.month_category =
            some c := find?_append_some _ _ _ _ hc
        rw [hc]
        unfold keepB
        rw [hcApp]
        simp only [Option.some_bind]
        cases hd : dictGet ntc c.name with
        | some cat =>
          have : c.name ∈ T.map (fun x => x.name) :=
            (hdictIff c.name).mp (by rw [hd]; rfl)
          simp [(hnameIff c.name).mpr this]
        | none =>
          have : ¬ c.name ∈ T.map (fun x => x.name) := by
            intro hmem
            have := (hdictIff c.name).mpr hmem
            rw [hd] at this
            cases this
          simp only [Option.isSome_none]
          have : ¬ (c.name ∈ (base.categories.filter
              (fun c2 => decide (c2.month_budget = prevId))).map
                (fun c2 => c2.name)) := fun hmem =>
            this ((hnameIff c.name).mp hmem)
          simp [this]
    rw [hkeep] at hF
    refine Forall₂_imp_mem hF ?_
    intro e e' he hR
    rcases hR with ⟨c0, cat, hc0, hd, hmb, hmc, hnm, ham, het, hdt, hns, hen,
      htp⟩
    refine ⟨hmb, hnm, ham, het, hns, hen, htp, hdt, ?_⟩
    -- e is a carried-over row, so its category resolves in the base table
    have heMem : e ∈ base.expenses := List.mem_of_mem_filter he
    have heKeep : carriesOver base prevId e = true := List.of_mem_filter he
    unfold carriesOver at heKeep
    have hQ' : e.month_budget = some prevId := by
      simp only [Bool.and_eq_true] at heKeep
      exact of_decide_eq_true heKeep.1
    rcases hexists e heMem hQ' with ⟨c, hc⟩
    have hcApp : findCat (base.categories ++ T) e.month_category = some c :=
      find?_append_some _ _ _ _ hc
    have hc0c : c0 = c := by
      rw [hc0] at hcApp
      exact (Option.some.injEq _ _).mp hcApp
    subst hc0c
    have hpair := dictGet_mem hd
    rw [hntc] at hpair
    rcases List.mem_map.mp hpair with ⟨x, hx, hxe⟩
    have hx1 : x.name = c0.name := congrArg Prod.fst hxe
    have hx2 : x = cat := congrArg Prod.snd hxe
    have hcatT : cat ∈ T := hx2 ▸ hx
    refine ⟨c0, cat, hc, ?_, (hTmem cat hcatT).2, hx2 ▸ hx1⟩
    show findCat (base.categories ++ T) e'.month_category = some cat
    rw [hmc]
    have hnone : (base.categories).find?
        (fun y => decide (y.id = cat.id)) = none := by
      rw [List.find?_eq_none]
      intro y hyb
      have := hcatid y hyb
      have := (hTmem cat hcatT).1
      simp only [decide_eq_true_eq]
      omega
    unfold findCat
    rw [find?_append_none _ _ _ hnone]
    exact cloneCatsPure_find mbId L db2.nextId cat hcatT

/-! Claim C2: carry-forward correctness. -/

/-- C2. When a prior month exists (the greatest month strictly before the
target for this owner), every one of its categories is cloned into the new
month preserving name and sort order (in `(sort_order, name)` display
order), and every one of its expenses — selected through the denormalized
month reference, which under the stated referential-integrity hypotheses is
all of them — is cloned into the same-named cloned category preserving name,
amount, kind, notes, enabled flag and template reference; a cloned Variable
expense's date becomes the new month's first day and a cloned Recurring
expense has no date. -/
theorem ensure_month_carry_forward (db : DB) (m : Date) (u : Option Nat)
    (cf : Bool) (prev : MonthBudget)
    (hf : findMonth db u (firstOfMonth m) = none)
    (hprev : latestBefore db u (firstOfMonth m) = some prev)
    (hcatid : ∀ c ∈ db.categories, c.id < db.nextId)
    (hcatref : ∀ c ∈ db.categories, c.month_budget < db.nextId)
    (hexpref : ∀ e ∈ db.expenses, ∀ j, e.month_budget = some j →
      j < db.nextId)
    (hdenorm : ∀ e ∈ db.expenses, e.month_budget = some prev.id →
      ∃ c, findCat db.categories e.month_category = some c ∧
        c.month_budget = prev.id) :
    List.Forall₂ (fun c c' =>
        c'.month_budget = (create_month_with_defaults db m u cf).1.id ∧
        c'.name = c.name ∧ c'.sort_order = c.sort_order)
      (sortCats (db.categories.filter
        (fun c => decide (c.month_budget = prev.id))))
      ((create_month_with_defaults db m u cf).2.categories.filter
        (fun c => decide (c.month_budget =
          (create_month_with_defaults db m u cf).1.id))) ∧
    List.Forall₂ (fun e e' =>
        e'.month_budget = some (create_month_with_defaults db m u cf).1.id ∧
        e'.name = e.name ∧ e'.amount = e.amount ∧
        e'.expense_type = e.expense_type ∧ e'.notes = e.notes ∧
        e'.enabled = e.enabled ∧ e'.template = e.template ∧
        e'.date = (if e.expense_type = ExpenseType.Variable then
          some (firstOfMonth m) else none) ∧
        ∃ c c', findCat db.categories e.month_category = some c ∧
          getCategoryById (create_month_with_defaults db m u cf).2
            e'.month_category = some c' ∧
          c'.month_budget = (create_month_with_defaults db m u cf).1.id ∧
          c'.name = c.name)
      (db.expenses.filter (fun e => decide (e.month_budget = some prev.id)))
      ((create_month_with_defaults db m u cf).2.expenses.filter
        (fun e => decide (e.month_budget =
          some (create_month_with_defaults db m u cf).1.id))) := by
  have hco : db.expenses.filter (carriesOver db prev.id) =
      db.expenses.filter (fun e => decide (e.month_budget = some prev.id)) := by
    apply List.filter_congr
    intro e he
    unfold carriesOver
    cases hQ : (decide (e.month_budget = some prev.id) : Bool) with
    | false => simp
    | true =>
      simp only [Bool.and_true, Bool.true_and]
      have hQ' : e.month_budget = some prev.id := of_decide_eq_true hQ
      rcases hdenorm e he hQ' with ⟨c, hc, hcm⟩
      rw [hc]
      have hcmem : c ∈ db.categories := List.mem_of_find?_eq_some hc
      have : c.name ∈ (db.categories.filter
          (fun c2 => decide (c2.month_budget = prev.id))).map
            (fun c2 => c2.name) :=
        List.mem_map.mpr ⟨c, List.mem_filter.mpr ⟨hcmem, by simp [hcm]⟩, rfl⟩
      simp [this]
  have hexists : ∀ e ∈ db.expenses, e.month_budget = some prev.id →
      ∃ c, findCat db.categories e.month_category = some c :=
    fun e he hq => ⟨(hdenorm e he hq).choose, (hdenorm e he hq).choose_spec.1⟩
  have hcatfresh : ∀ c ∈ db.categories, c.month_budget ≠ db.nextId := by
    intro c hc
    have := hcatref c hc
    omega
  have hexpfresh : ∀ e ∈ db.expenses, e.month_budget ≠ some db.nextId := by
    intro e he hcontra
    have := hexpref e he db.nextId hcontra
    omega
  unfold create_month_with_defaults
  simp only [hf]
  set m' := firstOfMonth m with hm'
  set mb : MonthBudget := ⟨db.nextId, u, m', 0, MonthStatus.Open⟩ with hmb
  set db1 : DB :=
    { db with months := db.months ++ [mb], nextId := db.nextId + 1 } with hdb1
  have hlb : latestBefore db1 u m' = some prev := by
    rw [hdb1, latestBefore_append db u m' mb (db.nextId + 1) rfl]
    exact hprev
  simp only [hlb]
  by_cases hcf : cf
  · simp only [hcf, if_true]
    have key := clone_phase db
      { db1 with months := db1.months.map (fun x => if x.id = mb.id then
          { mb with net_income := prev.net_income } else x) }
      db.nextId m' prev.id rfl rfl rfl hcatid hcatfresh hexpfresh hexists
    rw [← hco]
    exact ⟨key.1, key.2⟩
  · simp only [hcf, if_false]
    have key := clone_phase db db1 db.nextId m' prev.id rfl rfl rfl hcatid
      hcatfresh hexpfresh hexists
    rw [← hco]
    exact ⟨key.1, key.2⟩

theorem length_filter_mono {α : Type} (p q : α → Bool)
    (h : ∀ a, p a = true → q a = true) :
    ∀ l : List α, (l.filter p).length ≤ (l.filter q).length
  | [] => le_refl _
  | a :: l => by
    rw [List.filter_cons, List.filter_cons]
    cases hpa : p a with
    | true =>
      rw [h a hpa]
      simpa using length_filter_mono p q h l
    | false =>
      cases hqa : q a with
      | true =>
        simp only [if_true, if_false, Bool.false_eq_true, List.length_cons]
        exact le_trans (length_filter_mono p q h l) (by omega)
      | false =>
        simpa using length_filter_mono p q h l

/-- C2 witness: carrying January 2024 forward into February 2024 yields
exactly as many expenses in the new month as the prior month had (two:
Recurring 50 and Variable 20). -/
theorem ensure_month_carry_forward_witness :
    ((create_month_with_defaults dbPrior ⟨2024, 2, 1⟩ (some 1) true).2.expenses.filter
      (fun e => decide (e.month_budget =
        some (create_month_with_defaults dbPrior ⟨2024, 2, 1⟩ (some 1) true).1.id))).length = 2 := by
  have h := ensure_month_carry_forward dbPrior ⟨2024, 2, 1⟩ (some 1) true
    ⟨0, some 1, ⟨2024, 1, 1⟩, 2000, MonthStatus.Open⟩
    (by rfl) (by rfl) (by decide) (by decide)
    (by
      intro e he j hj
      simp [dbPrior] at he
      rcases he with he | he <;> subst he <;> (cases hj; decide))
    (by
      intro e he hq
      simp [dbPrior] at he
      rcases he with he | he <;> subst he <;>
        exact ⟨⟨1, 0, "Bills", 10⟩, by decide, by decide⟩)
  have hlen := h.2.length_eq
  rw [← hlen]
  decide

/-! Claim C10: selection rule of the carry-forward cloning. -/

/-- C10. The carry-forward selects candidate expenses by their denormalized
`month_budget` reference being the prior month — not by category membership —
and copies a candidate only when its category's name occurs among the prior
month's category names (the `carriesOver` predicate); every other expense,
including one whose `month_budget` is unset or whose category name is absent
from the prior month, is silently skipped, so the new month can hold fewer
expenses than the prior month's total. -/
theorem ensure_month_clone_selection (db : DB) (m : Date) (u : Option Nat)
    (cf : Bool) (prev : MonthBudget)
    (hf : findMonth db u (firstOfMonth m) = none)
    (hprev : latestBefore db u (firstOfMonth m) = some prev)
    (hcatid : ∀ c ∈ db.categories, c.id < db.nextId)
    (hcatref : ∀ c ∈ db.categories, c.month_budget < db.nextId)
    (hexpref : ∀ e ∈ db.expenses, ∀ j, e.month_budget = some j →
      j < db.nextId)
    (hexists : ∀ e ∈ db.expenses, e.month_budget = some prev.id →
      ∃ c, findCat db.categories e.month_category = some c) :
    List.Forall₂ (fun e e' => e'.name = e.name ∧ e'.amount = e.amount ∧
        e'.expense_type = e.expense_type)
      (db.expenses.filter (carriesOver db prev.id))
      ((create_month_with_defaults db m u cf).2.expenses.filter
        (fun e => decide (e.month_budget =
          some (create_month_with_defaults db m u cf).1.id))) ∧
    (db.expenses.filter (carriesOver db prev.id)).length ≤
      (db.expenses.filter
        (fun e => decide (e.month_budget = some prev.id))).length := by
  have hcatfresh : ∀ c ∈ db.categories, c.month_budget ≠ db.nextId := by
    intro c hc
    have := hcatref c hc
    omega
  have hexpfresh : ∀ e ∈ db.expenses, e.month_budget ≠ some db.nextId := by
    intro e he hcontra
    have := hexpref e he db.nextId hcontra
    omega
  have hmono : (db.expenses.filter (carriesOver db prev.id)).length ≤
      (db.expenses.filter
        (fun e => decide (e.month_budget = some prev.id))).length := by
    apply length_filter_mono
    intro a ha
    unfold carriesOver at ha
    simp only [Bool.and_eq_true] at ha
    exact ha.1
  refine ⟨?_, hmono⟩
  unfold create_month_with_defaults
  simp only [hf]
  set m' := firstOfMonth m with hm'
  set mb : MonthBudget := ⟨db.nextId, u, m', 0, MonthStatus.Open⟩ with hmb
  set db1 : DB :=
    { db with months := db.months ++ [mb], nextId := db.nextId + 1 } with hdb1
  have hlb : latestBefore db1 u m' = some prev := by
    rw [hdb1, latestBefore_append db u m' mb (db.nextId + 1) rfl]
    exact hprev
  simp only [hlb]
  by_cases hcf : cf
  · simp only [hcf, if_true]
    have key := clone_phase db
      { db1 with months := db1.months.map (fun x => if x.id = mb.id then
          { mb with net_income := prev.net_income } else x) }
      db.nextId m' prev.id rfl rfl rfl hcatid hcatfresh hexpfresh hexists
    exact key.2.imp (fun a b r => ⟨r.2.1, r.2.2.1, r.2.2.2.1⟩)
  · simp only [hcf, if_false]
    have key := clone_phase db db1 db.nextId m' prev.id rfl rfl rfl hcatid
      hcatfresh hexpfresh hexists
    exact key.2.imp (fun a b r => ⟨r.2.1, r.2.2.1, r.2.2.2.1⟩)

/-- Witness state for C10: like `dbPrior` but with one extra Variable
expense whose denormalized month reference is unset and one Recurring
expense whose category ("Stray") is not among the prior month's category
names; neither is carried forward. -/
def dbPartial : DB :=
  { templates := [],
    months := [⟨0, some 1, ⟨2024, 1, 1⟩, 2000, MonthStatus.Open⟩],
    categories := [⟨1, 0, "Bills", 10⟩, ⟨4, 5, "Stray", 10⟩],
    expenses :=
      [⟨2, some 0, 1, "Internet", 50, ExpenseType.Recurring, none, "", true, none⟩,
       ⟨3, none, 1, "Orphan", 20, ExpenseType.Variable, some ⟨2024, 1, 10⟩, "", true, none⟩,
       ⟨6, some 0, 4, "Odd", 30, ExpenseType.Recurring, none, "", true, none⟩],
    overrides := [],
    nextId := 7 }

/-- C10 witness: of the three January expenses only "Internet" is carried
into February — the expense with no month reference and the expense whose
category name is absent from January's categories are skipped. -/
theorem ensure_month_clone_selection_witness :
    (dbPartial.expenses.filter (carriesOver dbPartial 0)).length = 1 ∧
    ((create_month_with_defaults dbPartial ⟨2024, 2, 1⟩ (some 1) true).2.expenses.filter
      (fun e => decide (e.month_budget =
        some (create_month_with_defaults dbPartial ⟨2024, 2, 1⟩ (some 1) true).1.id))).length = 1 ∧
    (dbPartial.expenses.filter
      (fun e => decide (e.month_budget = some 0))).length = 2 := by
  have h := ensure_month_clone_selection dbPartial ⟨2024, 2, 1⟩ (some 1) true
    ⟨0, some 1, ⟨2024, 1, 1⟩, 2000, MonthStatus.Open⟩
    (by rfl) (by rfl) (by decide) (by decide)
    (by
      intro e he j hj
      simp [dbPartial] at he
      rcases he with he | he | he <;> subst he <;> (cases hj <;> decide))
    (by
      intro e he hq
      simp [dbPartial] at he
      rcases he with he | he | he <;> subst he
      · exact ⟨⟨1, 0, "Bills", 10⟩, by decide⟩
      · cases hq
      · exact ⟨⟨4, 5, "Stray", 10⟩, by decide⟩)
  have hlen := h.1.length_eq
  refine ⟨by decide, ?_, by decide⟩
  rw [← hlen]
  decide

/-! Claim C7: seeding a first month from the active templates. -/

theorem max?_concat_getD : ∀ (l : List Nat) (a : Nat),
    ((l ++ [a]).max?).getD 0 = max ((l.max?).getD 0) a
  | [], a => by simp [List.max?]
  | b :: l, a => by
    show ((b :: (l ++ [a])).max?).getD 0 = _
    have h1 : (b :: (l ++ [a])).max? = some ((l ++ [a]).foldl max b) := rfl
    have h2 : (b :: l).max? = some (l.foldl max b) := rfl
    rw [h1, h2, List.foldl_append]
    simp

theorem pattern_max : ∀ k : Nat,
    ((((List.range k).map (fun i => 10 * (i + 1))).max?).getD 0) = 10 * k
  | 0 => rfl
  | k + 1 => by
    rw [List.range_succ, List.map_append, List.map_cons, List.map_nil,
      max?_concat_getD, pattern_max k]
    omega

theorem Forall₂_mem_right {α β : Type} {R : α → β → Prop} :
    ∀ {l1 : List α} {l2 : List β}, List.Forall₂ R l1 l2 →
      ∀ b ∈ l2, ∃ a, a ∈ l1 ∧ R a b
  | [], [], _, b, hb => by cases hb
  | a :: l1, b' :: l2, h, b, hb => by
    rcases List.forall₂_cons.mp h with ⟨hab, hrest⟩
    rcases List.mem_cons.mp hb with hb | hb
    · exact ⟨a, List.mem_cons_self _ _, hb ▸ hab⟩
    · rcases Forall₂_mem_right hrest b hb with ⟨x, hx, hr⟩
      exact ⟨x, List.mem_cons_of_mem _ hx, hr⟩

theorem seedLoop_main (mbId : Nat) :
    ∀ (l : List RecurringExpenseTemplate) (db : DB)
    (ntc : List (String × MonthCategory))
    (hI1 : ntc = (db.categories.filter
      (fun c => decide (c.month_budget = mbId))).map (fun c => (c.name, c)))
    (hI3 : (db.categories.filter
        (fun c => decide (c.month_budget = mbId))).map (fun c => c.sort_order) =
      (List.range (db.categories.filter
        (fun c => decide (c.month_budget = mbId))).length).map
        (fun i => 10 * (i + 1))),
    (∃ tailE, (seedLoop mbId db l ntc).expenses = db.expenses ++ tailE ∧
      List.Forall₂ (fun t e =>
        e.month_budget = some mbId ∧ e.name = t.name ∧
        e.amount = t.default_amount ∧
        e.expense_type = ExpenseType.Recurring ∧ e.date = none ∧
        e.notes = "" ∧ e.enabled = true ∧ e.template = some t.id ∧
        ∃ c, c ∈ (seedLoop mbId db l ntc).categories ∧
          c.month_budget = mbId ∧ c.id = e.month_category ∧
          c.name = t.default_category_name) l tailE) ∧
    ((seedLoop mbId db l ntc).categories.filter
        (fun c => decide (c.month_budget = mbId))).map (fun c => c.name) =
      (l.map (fun t => t.default_category_name)).foldl seenInsert
        ((db.categories.filter
          (fun c => decide (c.month_budget = mbId))).map (fun c => c.name)) ∧
    ((seedLoop mbId db l ntc).categories.filter
        (fun c => decide (c.month_budget = mbId))).map (fun c => c.sort_order) =
      (List.range ((seedLoop mbId db l ntc).categories.filter
        (fun c => decide (c.month_budget = mbId))).length).map
        (fun i => 10 * (i + 1))
  | [], db, ntc, hI1, hI3 => by
    rw [seedLoop]
    exact ⟨⟨[], by simp, List.Forall₂.nil⟩, by simp, hI3⟩
  | t :: rest, db, ntc, hI1, hI3 => by
    rw [seedLoop]
    have hnameiff : ∀ nm : String, (dictGet ntc nm).isSome = true ↔
        nm ∈ (db.categories.filter
          (fun c => decide (c.month_budget = mbId))).map (fun c => c.name) := by
      intro nm
      constructor
      · intro h
        rcases Option.isSome_iff_exists.mp h with ⟨cat, hcat⟩
        have hpair := dictGet_mem hcat
        rw [hI1] at hpair
        rcases List.mem_map.mp hpair with ⟨x, hx, hxe⟩
        exact List.mem_map.mpr ⟨x, hx, congrArg Prod.fst hxe⟩
      · intro h
        rcases List.mem_map.mp h with ⟨x, hx, hxn⟩
        exact dictGet_isSome_of_mem (by
          rw [hI1]
          exact List.mem_map.mpr ⟨x, hx, by rw [hxn]⟩)
    cases hd : dictGet ntc t.default_category_name with
    | some cat =>
      simp only []
      have hpair := dictGet_mem hd
      rw [hI1] at hpair
      rcases List.mem_map.mp hpair with ⟨x, hx, hxe⟩
      have hxc : x = cat := congrArg Prod.snd hxe
      have hxn : cat.name = t.default_category_name := by
        rw [← hxc]
        exact congrArg Prod.fst hxe
      have hcatmem : cat ∈ db.categories.filter
          (fun c => decide (c.month_budget = mbId)) := hxc ▸ hx
      have hcatmb : cat.month_budget = mbId := by
        have := List.of_mem_filter hcatmem
        exact of_decide_eq_true this
      obtain ⟨⟨tailE, hexp, hF⟩, hB, hC⟩ := seedLoop_main mbId rest
        (DB.mk db.templates db.months db.categories
          (db.expenses ++
            [⟨db.nextId, some mbId, cat.id, t.name, t.default_amount,
              ExpenseType.Recurring, none, "", true, some t.id⟩])
          db.overrides (db.nextId + 1)) ntc hI1 hI3
      refine ⟨⟨(⟨db.nextId, some mbId, cat.id, t.name, t.default_amount,
        ExpenseType.Recurring, none, "", true, some t.id⟩ : MonthExpense) ::
        tailE, ?_, ?_⟩, ?_, hC⟩
      · rw [hexp]
        simp
      · refine List.Forall₂.cons ⟨rfl, rfl, rfl, rfl, rfl, rfl, rfl, rfl,
          cat, ?_, hcatmb, rfl, hxn⟩ hF
        obtain ⟨tl, htl, -⟩ := seedLoop_cats_shape mbId rest _ ntc
        rw [htl]
        exact List.mem_append_left _ (List.mem_of_mem_filter hcatmem)
      · rw [hB, List.map_cons, List.foldl_cons]
        have : seenInsert ((db.categories.filter
            (fun c => decide (c.month_budget = mbId))).map (fun c => c.name))
            t.default_category_name =
            (db.categories.filter
              (fun c => decide (c.month_budget = mbId))).map (fun c => c.name) := by
          unfold seenInsert
          rw [if_pos]
          exact (hnameiff t.default_category_name).mp (by rw [hd]; rfl)
        rw [this]
    | none =>
      simp only []
      have hnotmem : ¬ t.default_category_name ∈ (db.categories.filter
          (fun c => decide (c.month_budget = mbId))).map (fun c => c.name) := by
        intro hmem
        have := (hnameiff t.default_category_name).mpr hmem
        rw [hd] at this
        cases this
      have hmax : aggMaxSortOrder db mbId = 10 * (db.categories.filter
          (fun c => decide (c.month_budget = mbId))).length := by
        unfold aggMaxSortOrder
        rw [hI3, pattern_max]
      have hfiltercons : ((db.categories ++
          [(⟨db.nextId, mbId, t.default_category_name,
            aggMaxSortOrder db mbId + 10⟩ : MonthCategory)]).filter
            (fun c => decide (c.month_budget = mbId))) =
          (db.categories.filter (fun c => decide (c.month_budget = mbId))) ++
          [(⟨db.nextId, mbId, t.default_category_name,
            aggMaxSortOrder db mbId + 10⟩ : MonthCategory)] := by
        rw [List.filter_append]
        simp [List.filter]
      obtain ⟨⟨tailE, hexp, hF⟩, hB, hC⟩ := seedLoop_main mbId rest
        (DB.mk db.templates db.months
          (db.categories ++
            [⟨db.nextId, mbId, t.default_category_name,
              aggMaxSortOrder db mbId + 10⟩])
          (db.expenses ++
            [⟨db.nextId + 1, some mbId, db.nextId, t.name, t.default_amount,
              ExpenseType.Recurring, none, "", true, some t.id⟩])
          db.overrides (db.nextId + 1 + 1))
        (ntc ++ [(t.default_category_name,
          ⟨db.nextId, mbId, t.default_category_name,
            aggMaxSortOrder db mbId + 10⟩)])
        (by
          show _ = ((db.categories ++ _).filter _).map _
          rw [hfiltercons, List.map_append, hI1]
          rfl)
        (by
          show ((db.categories ++
            [(⟨db.nextId, mbId, t.default_category_name,
              aggMaxSortOrder db mbId + 10⟩ : MonthCategory)]).filter
              (fun c => decide (c.month_budget = mbId))).map
              (fun c => c.sort_order) = _
          rw [hfiltercons, List.map_append, hI3, List.length_append]
          simp [List.range_succ, hmax]
          omega)
      refine ⟨⟨(⟨db.nextId + 1, some mbId, db.nextId, t.name, t.default_amount,
        ExpenseType.Recurring, none, "", true, some t.id⟩ : MonthExpense) ::
        tailE, ?_, ?_⟩, ?_, ?_⟩
      · rw [hexp]
        simp
      · refine List.Forall₂.cons ⟨rfl, rfl, rfl, rfl, rfl, rfl, rfl, rfl,
          ⟨db.nextId, mbId, t.default_category_name,
            aggMaxSortOrder db mbId + 10⟩, ?_, rfl, rfl, rfl⟩ hF
        obtain ⟨tl, htl, -⟩ := seedLoop_cats_shape mbId rest _ _
        rw [htl]
        exact List.mem_append_left _ (List.mem_append_right _
          (List.mem_singleton_self _))
      · rw [hB, List.map_cons, List.foldl_cons]
        have hsi : seenInsert ((db.categories.filter
            (fun c => decide (c.month_budget = mbId))).map (fun c => c.name))
            t.default_category_name =
            ((db.categories.filter
              (fun c => decide (c.month_budget = mbId))).map (fun c => c.name)) ++
            [t.default_category_name] := by
          unfold seenInsert
          rw [if_neg hnotmem]
        rw [hsi]
        congr 1
        show ((db.categories ++
          [(⟨db.nextId, mbId, t.default_category_name,
            aggMaxSortOrder db mbId + 10⟩ : MonthCategory)]).filter
            (fun c => decide (c.month_budget = mbId))).map (fun c => c.name) = _
        rw [hfiltercons, List.map_append]
        rfl
      · exact hC

/-- C7. With no prior month for the owner, the new month is seeded from the
owner's active templates in queryset (name) order: exactly one Recurring
expense per active template, referencing a category of the new month named
by the template; distinct category names are created in template-encounter
order with sort orders 10, 20, 30, … — each strictly above the current
maximum at a gap of 10. -/
theorem ensure_month_seed_templates (db : DB) (m : Date) (u : Option Nat)
    (cf : Bool) (hf : findMonth db u (firstOfMonth m) = none)
    (hnoprev : latestBefore db u (firstOfMonth m) = none)
    (hcatfresh : ∀ c ∈ db.categories, c.month_budget ≠ db.nextId)
    (hexpfresh : ∀ e ∈ db.expenses, e.month_budget ≠ some db.nextId) :
    List.Forall₂ (fun t e =>
        e.month_budget = some (create_month_with_defaults db m u cf).1.id ∧
        e.name = t.name ∧ e.amount = t.default_amount ∧
        e.expense_type = ExpenseType.Recurring ∧ e.date = none ∧
        e.enabled = true ∧ e.template = some t.id ∧
        ∃ c, c ∈ (create_month_with_defaults db m u cf).2.categories ∧
          c.month_budget = (create_month_with_defaults db m u cf).1.id ∧
          c.id = e.month_category ∧ c.name = t.default_category_name)
      (sortTemplates (db.templates.filter
        (fun t => t.active && decide (t.user = u))))
      ((create_month_with_defaults db m u cf).2.expenses.filter
        (fun e => decide (e.month_budget =
          some (create_month_with_defaults db m u cf).1.id))) ∧
    ((create_month_with_defaults db m u cf).2.categories.filter
        (fun c => decide (c.month_budget =
          (create_month_with_defaults db m u cf).1.id))).map
        (fun c => c.name) =
      encounterOrder ((sortTemplates (db.templates.filter
        (fun t => t.active && decide (t.user = u)))).map
        (fun t => t.default_category_name)) ∧
    ((create_month_with_defaults db m u cf).2.categories.filter
        (fun c => decide (c.month_budget =
          (create_month_with_defaults db m u cf).1.id))).map
        (fun c => c.sort_order) =
      (List.range ((create_month_with_defaults db m u cf).2.categories.filter
        (fun c => decide (c.month_budget =
          (create_month_with_defaults db m u cf).1.id))).length).map
        (fun i => 10 * (i + 1)) := by
  unfold create_month_with_defaults
  simp only [hf]
  set m' := firstOfMonth m with hm'
  set mb : MonthBudget := ⟨db.nextId, u, m', 0, MonthStatus.Open⟩ with hmb
  set db1 : DB :=
    { db with months := db.months ++ [mb], nextId := db.nextId + 1 } with hdb1
  have hlb : latestBefore db1 u m' = none := by
    rw [hdb1, latestBefore_append db u m' mb (db.nextId + 1) rfl]
    exact hnoprev
  simp only [hlb]
  have hempty : db1.categories.filter
      (fun c => decide (c.month_budget = mb.id)) = [] := by
    rw [List.filter_eq_nil_iff]
    intro c hc
    simp [hcatfresh c hc]
  obtain ⟨⟨tailE, hexp, hF⟩, hB, hC⟩ := seedLoop_main mb.id
    (sortTemplates (db1.templates.filter
      (fun t => t.active && decide (t.user = u)))) db1 []
    (by rw [hempty]; rfl) (by rw [hempty]; rfl)
  have hexpAll : ∀ e ∈ tailE, e.month_budget = some mb.id := by
    intro e he
    rcases Forall₂_mem_right hF e he with ⟨a, -, hr⟩
    exact hr.1
  refine ⟨?_, ?_, ?_⟩
  · show List.Forall₂ _ _ ((seedLoop mb.id db1 _ []).expenses.filter _)
    rw [hexp, List.filter_append]
    have h1 : db1.expenses.filter
        (fun e => decide (e.month_budget = some mb.id)) = [] := by
      rw [List.filter_eq_nil_iff]
      intro e he
      simp [hexpfresh e he]
    have h2 : tailE.filter
        (fun e => decide (e.month_budget = some mb.id)) = tailE := by
      rw [List.filter_eq_self]
      intro e he
      simp [hexpAll e he]
    rw [h1, h2, List.nil_append]
    exact hF.imp (fun a b r =>
      ⟨r.1, r.2.1, r.2.2.1, r.2.2.2.1, r.2.2.2.2.1, r.2.2.2.2.2.2.1,
       r.2.2.2.2.2.2.2.1, r.2.2.2.2.2.2.2.2⟩)
  · show ((seedLoop mb.id db1 _ []).categories.filter _).map _ = _
    rw [hB, hempty]
    rfl
  · exact hC

/-- C7 witness: seeding from `dbSeed` (active templates Power, Rent, Water
in name order; Club inactive) creates three Recurring expenses and the
categories Utilities then Housing at sort orders 10 and 20. -/
theorem ensure_month_seed_templates_witness :
    ((create_month_with_defaults dbSeed ⟨2024, 1, 17⟩ (some 1) true).2.categories.filter
      (fun c => decide (c.month_budget =
        (create_month_with_defaults dbSeed ⟨2024, 1, 17⟩ (some 1) true).1.id))).map
      (fun c => c.name) =
      encounterOrder ((sortTemplates (dbSeed.templates.filter
        (fun t => t.active && decide (t.user = some 1)))).map
        (fun t => t.default_category_name)) ∧
    ((create_month_with_defaults dbSeed ⟨2024, 1, 17⟩ (some 1) true).2.expenses.filter
      (fun e => decide (e.month_budget =
        some (create_month_with_defaults dbSeed ⟨2024, 1, 17⟩ (some 1) true).1.id))).length =
      (sortTemplates (dbSeed.templates.filter
        (fun t => t.active && decide (t.user = some 1)))).length := by
  have h := ensure_month_seed_templates dbSeed ⟨2024, 1, 17⟩ (some 1) true
    (by rfl) (by rfl) (by decide) (by decide)
  exact ⟨h.2.1, h.1.length_eq.symm⟩

/-! Claim C9: transactional atomicity of month creation. -/

theorem cloneCatsLoopF_ok (mbId : Nat) : ∀ (l : List MonthCategory)
    (fuel : Nat) (db : DB) (ntc : List (String × MonthCategory))
    (r : Nat × DB × List (String × MonthCategory)),
    cloneCatsLoopF mbId fuel db l ntc = Except.ok r →
      r.2 = cloneCatsLoop mbId db l ntc
  | [], fuel, db, ntc, r, h => by
    rw [cloneCatsLoopF] at h
    cases h
    rfl
  | c :: rest, 0, db, ntc, r, h => by
    rw [cloneCatsLoopF] at h
    cases h
  | c :: rest, fuel + 1, db, ntc, r, h => by
    rw [cloneCatsLoopF] at h
    rw [cloneCatsLoop]
    exact cloneCatsLoopF_ok mbId rest fuel _ _ r h

theorem cloneCatsLoopF_complete (mbId : Nat) : ∀ (l : List MonthCategory)
    (fuel : Nat) (db : DB) (ntc : List (String × MonthCategory)),
    l.length ≤ fuel →
      cloneCatsLoopF mbId fuel db l ntc =
        Except.ok (fuel - l.length, cloneCatsLoop mbId db l ntc)
  | [], fuel, db, ntc, _ => by
    rw [cloneCatsLoopF, cloneCatsLoop]
    simp
  | c :: rest, 0, db, ntc, h => by
    simp at h
  | c :: rest, fuel + 1, db, ntc, h => by
    rw [cloneCatsLoopF, cloneCatsLoop]
    have hr : rest.length ≤ fuel := by
      rw [List.length_cons] at h
      omega
    rw [cloneCatsLoopF_complete mbId rest fuel _ _ hr]
    rw [List.length_cons,
      show fuel + 1 - (rest.length + 1) = fuel - rest.length from by omega]

theorem cloneExpensesLoopF_ok (mbId : Nat) (nm : Date)
    (ntc : List (String × MonthCategory)) : ∀ (items : List MonthExpense)
    (fuel : Nat) (db : DB) (r : Nat × DB),
    cloneExpensesLoopF mbId nm ntc fuel db items = Except.ok r →
      r.2 = cloneExpensesLoop mbId nm ntc db items
  | [], fuel, db, r, h => by
    rw [cloneExpensesLoopF] at h
    cases h
    rfl
  | item :: rest, fuel, db, r, h => by
    rw [cloneExpensesLoopF] at h
    rw [cloneExpensesLoop]
    cases hc : getCategoryById db item.month_category with
    | none =>
      simp only [hc] at h
      simp only [hc]
      exact cloneExpensesLoopF_ok mbId nm ntc rest fuel db r h
    | some itemCat =>
      simp only [hc] at h
      simp only [hc]
      cases hd : dictGet ntc itemCat.name with
      | none =>
        simp only [hd] at h
        simp only [hd]
        exact cloneExpensesLoopF_ok mbId nm ntc rest fuel db r h
      | some cat =>
        simp only [hd] at h
        simp only [hd]
        cases fuel with
        | zero => cases h
        | succ fuel' =>
          exact cloneExpensesLoopF_ok mbId nm ntc rest fuel' _ r h

theorem cloneExpensesLoopF_complete (mbId : Nat) (nm : Date)
    (ntc : List (String × MonthCategory)) : ∀ (items : List MonthExpense)
    (fuel : Nat) (db : DB), items.length ≤ fuel →
      ∃ f', cloneExpensesLoopF mbId nm ntc fuel db items =
        Except.ok (f', cloneExpensesLoop mbId nm ntc db items)
  | [], fuel, db, _ => by
    rw [cloneExpensesLoopF, cloneExpensesLoop]
    exact ⟨fuel, rfl⟩
  | item :: rest, fuel, db, h => by
    rw [cloneExpensesLoopF, cloneExpensesLoop]
    have hr : rest.length ≤ fuel := by
      rw [List.length_cons] at h
      omega
    cases hc : getCategoryById db item.month_category with
    | none =>
      simp only [hc]
      exact cloneExpensesLoopF_complete mbId nm ntc rest fuel db hr
    | some itemCat =>
      simp only [hc]
      cases hd : dictGet ntc itemCat.name with
      | none =>
        simp only [hd]
        exact cloneExpensesLoopF_complete mbId nm ntc rest fuel db hr
      | some cat =>
        simp only [hd]
        cases fuel with
        | zero =>
          rw [List.length_cons] at h
          omega
        | succ fuel' =>
          exact cloneExpensesLoopF_complete mbId nm ntc rest fuel' _
            (by rw [List.length_cons] at h; omega)

theorem seedLoopF_ok (mbId : Nat) : ∀ (l : List RecurringExpenseTemplate)
    (fuel : Nat) (db : DB) (ntc : List (String × MonthCategory))
    (r : Nat × DB),
    seedLoopF mbId fuel db l ntc = Except.ok r →
      r.2 = seedLoop mbId db l ntc
  | [], fuel, db, ntc, r, h => by
    rw [seedLoopF] at h
    cases h
    rw [seedLoop]
  | t :: rest, fuel, db, ntc, r, h => by
    rw [seedLoopF] at h
    rw [seedLoop]
    cases hd : dictGet ntc t.default_category_name with
    | some cat =>
      simp only [hd] at h
      simp only [hd]
      cases fuel with
      | zero =>
        simp only [tryWrite] at h
        cases h
      | succ fuel' =>
        simp only [tryWrite] at h
        exact seedLoopF_ok mbId rest fuel' _ ntc r h
    | none =>
      simp only [hd] at h
      simp only [hd]
      cases fuel with
      | zero =>
        simp only [tryWrite] at h
        cases h
      | succ fuel' =>
        simp only [tryWrite] at h
        cases fuel' with
        | zero =>
          simp only [tryWrite] at h
          cases h
        | succ fuel'' =>
          simp only [tryWrite] at h
          exact seedLoopF_ok mbId rest fuel'' _ _ r h

theorem seedLoopF_complete (mbId : Nat) : ∀ (l : List RecurringExpenseTemplate)
    (fuel : Nat) (db : DB) (ntc : List (String × MonthCategory)),
    2 * l.length ≤ fuel →
      ∃ f', seedLoopF mbId fuel db l ntc =
        Except.ok (f', seedLoop mbId db l ntc)
  | [], fuel, db, ntc, _ => by
    rw [seedLoopF, seedLoop]
    exact ⟨fuel, rfl⟩
  | t :: rest, fuel, db, ntc, h => by
    rw [seedLoopF, seedLoop]
    rw [List.length_cons] at h
    cases hd : dictGet ntc t.default_category_name with
    | some cat =>
      simp only [hd]
      cases fuel with
      | zero => omega
      | succ fuel' =>
        simp only [tryWrite]
        exact seedLoopF_complete mbId rest fuel' _ ntc (by omega)
    | none =>
      simp only [hd]
      cases fuel with
      | zero => omega
      | succ fuel' =>
        simp only [tryWrite]
        cases fuel' with
        | zero => omega
        | succ fuel'' =>
          simp only [tryWrite]
          exact seedLoopF_complete mbId rest fuel'' _ _ (by omega)

theorem create_month_faulty_ok (fuel : Nat) (db : DB) (m : Date)
    (u : Option Nat) (cf : Bool) (r : MonthBudget × DB)
    (h : create_month_faulty fuel db m u cf = Except.ok r) :
    r = create_month_with_defaults db m u cf := by
  unfold create_month_faulty at h
  unfold create_month_with_defaults
  cases hfm : findMonth db u (firstOfMonth m) with
  | some mb =>
    simp only [hfm] at h
    simp only [hfm]
    cases h
    rfl
  | none =>
    simp only [hfm] at h
    simp only [hfm]
    cases fuel with
    | zero => cases h
    | succ f1 =>
      simp only [] at h
      set m' := firstOfMonth m with hm'
      set mb : MonthBudget := ⟨db.nextId, u, m', 0, MonthStatus.Open⟩ with hmb
      set db1 : DB :=
        { db with months := db.months ++ [mb], nextId := db.nextId + 1 }
        with hdb1
      cases hp : latestBefore db1 u m' with
      | none =>
        simp only [hp] at h
        simp only [hp]
        split at h
        · cases h
        · rename_i f2 db2 hsl
          cases h
          have := seedLoopF_ok mb.id _ f1 db1 [] (f2, db2) hsl
          simp only [Prod.mk.injEq]
          exact ⟨by first | rfl | trivial, this⟩
      | some prev =>
        simp only [hp] at h
        simp only [hp]
        by_cases hcf : cf
        · simp only [hcf, if_true] at h ⊢
          cases f1 with
          | zero => cases h
          | succ f2 =>
            simp only [] at h
            split at h
            · cases h
            · rename_i f3 db3 ntc hcc
              have h3 := cloneCatsLoopF_ok mb.id _ f2 _ [] _ hcc
              have hdb3 := congrArg Prod.fst h3
              have hntc := congrArg Prod.snd h3
              simp only [] at hdb3 hntc
              split at h
              · cases h
              · rename_i f4 db4 hce
                cases h
                have h4 := cloneExpensesLoopF_ok mb.id m' ntc _ f3 db3
                  (f4, db4) hce
                simp only [Prod.mk.injEq]
                refine ⟨by first | rfl | trivial, ?_⟩
                rw [show ((f4, db4) : Nat × DB).2 = db4 from rfl] at h4
                rw [h4, hdb3, hntc]
        · simp only [hcf, Bool.false_eq_true, if_false] at h ⊢
          split at h
          · cases h
          · rename_i f3 db3 ntc hcc
            have h3 := cloneCatsLoopF_ok mb.id _ f1 _ [] _ hcc
            have hdb3 := congrArg Prod.fst h3
            have hntc := congrArg Prod.snd h3
            simp only [] at hdb3 hntc
            split at h
            · cases h
            · rename_i f4 db4 hce
              cases h
              have h4 := cloneExpensesLoopF_ok mb.id m' ntc _ f3 db3
                (f4, db4) hce
              simp only [Prod.mk.injEq]
              refine ⟨by first | rfl | trivial, ?_⟩
              rw [show ((f4, db4) : Nat × DB).2 = db4 from rfl] at h4
              rw [h4, hdb3, hntc]

theorem cloneExpensesLoopF_ne_error (mbId : Nat) (nm : Date)
    (ntc : List (String × MonthCategory)) (items : List MonthExpense)
    (fuel : Nat) (db : DB) (h : items.length ≤ fuel) (d : DB) :
    cloneExpensesLoopF mbId nm ntc fuel db items ≠ Except.error d := by
  obtain ⟨f', hok⟩ := cloneExpensesLoopF_complete mbId nm ntc items fuel db h
  rw [hok]
  simp

theorem create_month_faulty_isOk (db : DB) (m : Date) (u : Option Nat)
    (cf : Bool) (fuel : Nat)
    (hfuel : 2 + db.categories.length + db.expenses.length +
      2 * db.templates.length ≤ fuel) :
    ∃ r, create_month_faulty fuel db m u cf = Except.ok r := by
  unfold create_month_faulty
  cases hfm : findMonth db u (firstOfMonth m) with
  | some mb =>
    simp only [hfm]
    exact ⟨(mb, db), rfl⟩
  | none =>
    simp only [hfm]
    cases fuel with
    | zero => omega
    | succ f1 =>
      simp only []
      set m' := firstOfMonth m with hm'
      set mb : MonthBudget := ⟨db.nextId, u, m', 0, MonthStatus.Open⟩ with hmb
      set db1 : DB :=
        { db with months := db.months ++ [mb], nextId := db.nextId + 1 }
        with hdb1
      cases hp : latestBefore db1 u m' with
      | none =>
        simp only [hp]
        have hlen : 2 * (sortTemplates (db1.templates.filter
            (fun t => t.active && decide (t.user = u)))).length ≤ f1 := by
          have h1 := (List.mergeSort_perm (db1.templates.filter
            (fun t => t.active && decide (t.user = u))) templateLe).length_eq
          have h2 := List.length_filter_le
            (fun t => t.active && decide (t.user = u)) db1.templates
          have h3 : db1.templates.length = db.templates.length := rfl
          unfold sortTemplates
          omega
        obtain ⟨f', hsl⟩ := seedLoopF_complete mb.id _ f1 db1 [] hlen
        rw [hsl]
        exact ⟨_, rfl⟩
      | some prev =>
        simp only [hp]
        by_cases hcf : cf
        · simp only [hcf, if_true]
          cases f1 with
          | zero => omega
          | succ f2 =>
            simp only []
            set db2t : DB := { db1 with months := db1.months.map (fun x => if x.id = mb.id then { mb with net_income := prev.net_income } else x) } with hdb2t
            have hlen : (sortCats (db.categories.filter
                (fun c => decide (c.month_budget = prev.id)))).length ≤ f2 := by
              have h1 := (List.mergeSort_perm (db.categories.filter
                (fun c => decide (c.month_budget = prev.id)))
                catOrderLe).length_eq
              have h2 := List.length_filter_le
                (fun c => decide (c.month_budget = prev.id)) db.categories
              unfold sortCats
              omega
            cases hcc : cloneCatsLoopF mb.id f2 db2t
                (sortCats (db.categories.filter
                  (fun c => decide (c.month_budget = prev.id)))) [] with
            | error d =>
              rw [cloneCatsLoopF_complete mb.id _ f2 _ [] hlen] at hcc
              cases hcc
            | ok trip =>
              obtain ⟨f3, db3, ntc⟩ := trip
              rw [cloneCatsLoopF_complete mb.id _ f2 _ [] hlen] at hcc
              simp only [Except.ok.injEq, Prod.mk.injEq] at hcc
              obtain ⟨hf3, hpair⟩ := hcc
              have hdb3 : db3 = (cloneCatsLoop mb.id db2t
                  (sortCats (db.categories.filter
                    (fun c => decide (c.month_budget = prev.id)))) []).1 :=
                (congrArg Prod.fst hpair).symm
              have hlenE : (db3.expenses.filter
                  (fun e => decide (e.month_budget = some prev.id))).length ≤ f3 := by
                rw [hdb3, cloneCatsLoop_eq]
                show (db.expenses.filter
                  (fun e => decide (e.month_budget = some prev.id))).length ≤ f3
                have h1 := (List.mergeSort_perm (db.categories.filter
                  (fun c => decide (c.month_budget = prev.id)))
                  catOrderLe).length_eq
                have h2 := List.length_filter_le
                  (fun c => decide (c.month_budget = prev.id)) db.categories
                have h3 := List.length_filter_le
                  (fun e => decide (e.month_budget = some prev.id)) db.expenses
                unfold sortCats at hf3
                omega
              simp only []
              cases hce : cloneExpensesLoopF mb.id m' ntc f3 db3
                  (db3.expenses.filter
                    (fun e => decide (e.month_budget = some prev.id))) with
              | error d =>
                exact absurd hce
                  (cloneExpensesLoopF_ne_error mb.id m' ntc _ f3 db3 hlenE d)
              | ok pr =>
                obtain ⟨f4, db4⟩ := pr
                exact ⟨_, rfl⟩
        · simp only [hcf, Bool.false_eq_true, if_false]
          have hlen : (sortCats (db.categories.filter
              (fun c => decide (c.month_budget = prev.id)))).length ≤ f1 := by
            have h1 := (List.mergeSort_perm (db.categories.filter
              (fun c => decide (c.month_budget = prev.id)))
              catOrderLe).length_eq
            have h2 := List.length_filter_le
              (fun c => decide (c.month_budget = prev.id)) db.categories
            unfold sortCats
            omega
          cases hcc : cloneCatsLoopF mb.id f1 db1
              (sortCats (db.categories.filter
                (fun c => decide (c.month_budget = prev.id)))) [] with
          | error d =>
            rw [cloneCatsLoopF_complete mb.id _ f1 _ [] hlen] at hcc
            cases hcc
          | ok trip =>
            obtain ⟨f3, db3, ntc⟩ := trip
            rw [cloneCatsLoopF_complete mb.id _ f1 _ [] hlen] at hcc
            simp only [Except.ok.injEq, Prod.mk.injEq] at hcc
            obtain ⟨hf3, hpair⟩ := hcc
            have hdb3 : db3 = (cloneCatsLoop mb.id db1
                (sortCats (db.categories.filter
                  (fun c => decide (c.month_budget = prev.id)))) []).1 :=
              (congrArg Prod.fst hpair).symm
            have hlenE : (db3.expenses.filter
                (fun e => decide (e.month_budget = some prev.id))).length ≤ f3 := by
              rw [hdb3, cloneCatsLoop_eq]
              show (db.expenses.filter
                (fun e => decide (e.month_budget = some prev.id))).length ≤ f3
              have h1 := (List.mergeSort_perm (db.categories.filter
                (fun c => decide (c.month_budget = prev.id)))
                catOrderLe).length_eq
              have h2 := List.length_filter_le
                (fun c => decide (c.month_budget = prev.id)) db.categories
              have h3 := List.length_filter_le
                (fun e => decide (e.month_budget = some prev.id)) db.expenses
              unfold sortCats at hf3
              omega
            simp only []
            cases hce : cloneExpensesLoopF mb.id m' ntc f3 db3
                (db3.expenses.filter
                  (fun e => decide (e.month_budget = some prev.id))) with
            | error d =>
              exact absurd hce
                (cloneExpensesLoopF_ne_error mb.id m' ntc _ f3 db3 hlenE d)
            | ok pr =>
              obtain ⟨f4, db4⟩ := pr
              exact ⟨_, rfl⟩

/-- C9: `ensure_month` is atomic. In the fault-injected write model
(`create_month_atomic`, which wraps the body of
`create_month_with_defaults` in `@transaction.atomic` semantics: at most
`fuel` row writes succeed before an exception, and an exception rolls all
of them back), every invocation either leaves the persisted state exactly
the caller's original database with no month returned, or commits the new
month together with all of its cloned or seeded categories and expenses,
i.e. produces exactly the fault-free result of
`create_month_with_defaults`; no partially-populated month is ever left
behind.  Moreover, once the write budget covers the whole operation
(`2 + |categories| + |expenses| + 2·|templates|` writes), the committed
outcome is guaranteed. -/
theorem ensure_month_atomic (fuel : Nat) (db : DB) (m : Date)
    (u : Option Nat) (cf : Bool) :
    (create_month_atomic fuel db m u cf = (none, db) ∨
      create_month_atomic fuel db m u cf =
        (some (create_month_with_defaults db m u cf).1,
         (create_month_with_defaults db m u cf).2)) ∧
    (2 + db.categories.length + db.expenses.length +
        2 * db.templates.length ≤ fuel →
      create_month_atomic fuel db m u cf =
        (some (create_month_with_defaults db m u cf).1,
         (create_month_with_defaults db m u cf).2)) := by
  constructor
  · unfold create_month_atomic
    cases h : create_month_faulty fuel db m u cf with
    | error d => exact Or.inl rfl
    | ok r =>
      obtain ⟨mb, db'⟩ := r
      have heq := create_month_faulty_ok fuel db m u cf (mb, db') h
      right
      simp only []
      rw [← heq]
  · intro hfuel
    obtain ⟨r, hr⟩ := create_month_faulty_isOk db m u cf fuel hfuel
    have heq := create_month_faulty_ok fuel db m u cf r hr
    unfold create_month_atomic
    rw [hr]
    obtain ⟨mb, db'⟩ := r
    simp only []
    rw [← heq]

/-- Witness for C9: on the concrete database `dbPrior` (one open prior
month with one category and two expenses), a budget of 10 writes covers
the whole clone, and `create_month_atomic` commits exactly the fault-free
result. -/
theorem ensure_month_atomic_witness :
    create_month_atomic 10 dbPrior ⟨2024, 2, 1⟩ (some 1) true =
      (some (create_month_with_defaults dbPrior ⟨2024, 2, 1⟩ (some 1) true).1,
       (create_month_with_defaults dbPrior ⟨2024, 2, 1⟩ (some 1) true).2) :=
  (ensure_month_atomic 10 dbPrior ⟨2024, 2, 1⟩ (some 1) true).2 (by decide)

/-- When day number `d` (1-based from the first of month `(y, m)`) falls
inside the `j`-th following month — strictly past the first `j` months and
within the `(j+1)`-th — the rolling loop of `date + timedelta` lands in
exactly that month, on day `d` minus the skipped days. -/
theorem rollFromAux_land : ∀ (j y m d fuel : Nat),
    cumLen y m j < d → d ≤ cumLen y m (j + 1) → j ≤ fuel →
    rollFromAux fuel y m d =
      ⟨(monthStep^[j] (y, m)).1, (monthStep^[j] (y, m)).2, d - cumLen y m j⟩
  | 0, y, m, d, fuel, h1, h2, _ => by
    have hc0 : cumLen y m 0 = 0 := rfl
    have hc1 : cumLen y m (0 + 1) =
        daysInMonth y m + cumLen (monthStep (y, m)).1 (monthStep (y, m)).2 0 :=
      rfl
    have hc0s : cumLen (monthStep (y, m)).1 (monthStep (y, m)).2 0 = 0 := rfl
    have hd : d ≤ daysInMonth y m := by omega
    cases fuel with
    | zero => simp [rollFromAux, cumLen]
    | succ f =>
      have hunf : rollFromAux (f + 1) y m d =
          if d ≤ daysInMonth y m then (⟨y, m, d⟩ : Date)
          else if m = 12 then rollFromAux f (y + 1) 1 (d - daysInMonth y m)
          else rollFromAux f y (m + 1) (d - daysInMonth y m) := rfl
      rw [hunf, if_pos hd]
      simp [cumLen]
  | j + 1, y, m, d, fuel, h1, h2, hf => by
    have hc1 : cumLen y m (j + 1) =
        daysInMonth y m + cumLen (monthStep (y, m)).1 (monthStep (y, m)).2 j :=
      rfl
    have hc2 : cumLen y m (j + 1 + 1) =
        daysInMonth y m +
          cumLen (monthStep (y, m)).1 (monthStep (y, m)).2 (j + 1) := rfl
    cases fuel with
    | zero => omega
    | succ f =>
      have hrec := rollFromAux_land j (monthStep (y, m)).1 (monthStep (y, m)).2
        (d - daysInMonth y m) f (by omega) (by omega) (by omega)
      have hunf : rollFromAux (f + 1) y m d =
          if d ≤ daysInMonth y m then (⟨y, m, d⟩ : Date)
          else if m = 12 then rollFromAux f (y + 1) 1 (d - daysInMonth y m)
          else rollFromAux f y (m + 1) (d - daysInMonth y m) := rfl
      rw [hunf, if_neg (by omega)]
      have hsel : (if m = 12 then rollFromAux f (y + 1) 1 (d - daysInMonth y m)
          else rollFromAux f y (m + 1) (d - daysInMonth y m)) =
          rollFromAux f (monthStep (y, m)).1 (monthStep (y, m)).2
            (d - daysInMonth y m) := by
        by_cases hm : m = 12 <;> simp [monthStep, hm]
      rw [hsel, hrec, Function.iterate_succ_apply]
      congr 1
      omega

/-- Every calendar month has at most 31 days, so `j` consecutive months
cover at most `31 * j` days. -/
theorem cumLen_le_31 : ∀ (j y m : Nat), cumLen y m j ≤ 31 * j
  | 0, y, m => by simp [cumLen]
  | j + 1, y, m => by
    have h := cumLen_le_31 j (monthStep (y, m)).1 (monthStep (y, m)).2
    have hd : daysInMonth y m ≤ 31 := by
      unfold daysInMonth
      split
      · split <;> omega
      · split <;> omega
    have hc : cumLen y m (j + 1) =
        daysInMonth y m + cumLen (monthStep (y, m)).1 (monthStep (y, m)).2 j :=
      rfl
    omega

/-- The year-independent month lengths `baseLen` bound the real ones from
below, so `minCum` bounds `cumLen` from below. -/
theorem minCum_le_cumLen : ∀ (j y m : Nat), minCum m j ≤ cumLen y m j
  | 0, y, m => by simp [minCum, cumLen]
  | j + 1, y, m => by
    have h := minCum_le_cumLen j (monthStep (y, m)).1 (monthStep (y, m)).2
    have hb : baseLen m ≤ daysInMonth y m := by
      unfold baseLen daysInMonth
      by_cases hm : m = 2
      · simp [hm]
        split <;> omega
      · by_cases hp : m = 4 ∨ m = 6 ∨ m = 9 ∨ m = 11 <;> simp [hm, hp]
    have hms : (monthStep (y, m)).2 = mstep m := by
      by_cases hm : m = 12 <;> simp [monthStep, mstep, hm]
    have hc : cumLen y m (j + 1) =
        daysInMonth y m + cumLen (monthStep (y, m)).1 (monthStep (y, m)).2 j :=
      rfl
    have hmc : minCum m (j + 1) = baseLen m + minCum (mstep m) j := rfl
    rw [hms] at h hc
    omega

/-- For every start month and every index `i ≤ 9`, day `15 + 32·i` counted
from the start month's first day falls inside the `i`-th following month:
`32·i` overshoots day 15 by at most 4·i days, which stays below the
minimum length of any window of `i + 1` consecutive months.  (At `i = 10`
this fails for January and February starts, and at `i = 11` always.) -/
theorem minCum_bound : ∀ (m : Fin 12) (i : Fin 10),
    15 + 32 * i.val ≤ minCum (m.val + 1) (i.val + 1) := by decide

/-- For a valid start month and `i ≤ 9`, the month-stepping expression
`(start.replace(day=15) + timedelta(days=32*i)).replace(day=1)` of
`forecast_months` lands exactly on the first day of the `i`-th calendar
month after `start`. -/
theorem forecastStepMonth_eq (start : Date) (i : Nat)
    (hm1 : 1 ≤ start.month) (hm2 : start.month ≤ 12) (hi : i ≤ 9) :
    forecastStepMonth start i =
      ⟨(monthStep^[i] (start.year, start.month)).1,
       (monthStep^[i] (start.year, start.month)).2, 1⟩ := by
  have hb1 : cumLen start.year start.month i < 15 + 32 * i := by
    have := cumLen_le_31 i start.year start.month
    omega
  have hb2 : 15 + 32 * i ≤ cumLen start.year start.month (i + 1) := by
    have h1 := minCum_le_cumLen (i + 1) start.year start.month
    have h2 : 15 + 32 * i ≤ minCum (start.month - 1 + 1) (i + 1) :=
      minCum_bound ⟨start.month - 1, by omega⟩ ⟨i, by omega⟩
    have hmm : start.month - 1 + 1 = start.month := by omega
    rw [hmm] at h2
    omega
  have hland := rollFromAux_land i start.year start.month (15 + 32 * i)
    (15 + 32 * i) hb1 hb2 (by omega)
  show firstOfMonth
      (rollFromAux (15 + 32 * i) start.year start.month (15 + 32 * i)) = _
  rw [hland]
  simp [firstOfMonth]

/-- C4 (amended): for a start month with a valid month number and any
horizon of at most 10 months, `forecast_months` returns exactly `horizon`
results whose `month` fields are the `horizon` consecutive calendar months
starting at the normalized start month, each being exactly that month's
first day.  (The claim's "for every horizon value" is refuted by
`forecast_month_stepping_cex`: the 32-day stepping skips a month at index
10 for January starts.) -/
theorem forecast_month_stepping (db : DB) (user : Option Nat)
    (start_month : Date) (horizon : Nat)
    (hm1 : 1 ≤ start_month.month) (hm2 : start_month.month ≤ 12)
    (hh : horizon ≤ 10) :
    (forecast_months db user start_month horizon).map ForecastResult.month =
      (List.range horizon).map (fun i =>
        (⟨(monthStep^[i] (start_month.year, start_month.month)).1,
          (monthStep^[i] (start_month.year, start_month.month)).2, 1⟩ :
          Date)) := by
  simp only [forecast_months]
  rw [List.map_map]
  apply List.map_congr_left
  intro i hi
  have hi9 : i ≤ 9 := by
    have := List.mem_range.mp hi
    omega
  exact forecastStepMonth_eq (firstOfMonth start_month) i hm1 hm2 hi9

/-- Witness for C4 (amended): a three-month forecast from 2025-01-15 is
dated 2025-01-01, 2025-02-01, 2025-03-01. -/
theorem forecast_month_stepping_witness :
    (forecast_months emptyDB none ⟨2025, 1, 15⟩ 3).map ForecastResult.month =
      (List.range 3).map (fun i =>
        (⟨(monthStep^[i] (2025, 1)).1, (monthStep^[i] (2025, 1)).2, 1⟩ :
          Date)) :=
  forecast_month_stepping emptyDB none ⟨2025, 1, 15⟩ 3 (by decide) (by decide)
    (by decide)

/-- Counterexample to C4 as stated: with horizon 11 from January 2025 the
generated months are not the 11 consecutive calendar months — index 10
yields 2025-12-01 instead of 2025-11-01, because
`start.replace(day=15) + timedelta(days=320)` is 2025-12-01 (320 days past
January 15 overshoots the 304 days spanned by January–October plus the 30
days of November). -/
theorem forecast_month_stepping_cex :
    (forecast_months emptyDB none ⟨2025, 1, 15⟩ 11).map ForecastResult.month ≠
      (List.range 11).map (fun i =>
        (⟨(monthStep^[i] (2025, 1)).1, (monthStep^[i] (2025, 1)).2, 1⟩ :
          Date)) := by decide

/-- C6. `trailing_average_variable` works over the matching rows
(`matchRows`: the owner's Variable expenses joined through their category
to the owning month, matched by category name, month strictly before the
normalized given month): every matched row's month is strictly before the
normalized month, and there is a list `ms` of distinct months — the
`min window n` most recent of the `n` distinct matching months, in
descending calendar order (every matching month left out is older than
everything in `ms`) — such that the function returns the arithmetic mean
over `ms` of the per-month sums of the matching amounts, and exactly 0
when no history exists (`ms` empty). -/
theorem trailing_average_spec (db : DB) (user : Option Nat)
    (up_to_month : Date) (category_name : String) (window : Nat) :
    (∀ r ∈ matchRows db user (firstOfMonth up_to_month) category_name,
        Date.blt r.1 (firstOfMonth up_to_month) = true) ∧
    ∃ ms : List Date,
      ms.Nodup ∧
      ms.Pairwise (fun a b => Date.blt b a = true) ∧
      (∀ d ∈ ms, d ∈ (matchRows db user (firstOfMonth up_to_month)
        category_name).map Prod.fst) ∧
      ms.length = min window ((matchRows db user (firstOfMonth up_to_month)
        category_name).map Prod.fst).dedup.length ∧
      (∀ d ∈ (matchRows db user (firstOfMonth up_to_month)
          category_name).map Prod.fst, d ∉ ms →
        ∀ d' ∈ ms, Date.blt d d' = true) ∧
      trailing_average_variable db user up_to_month category_name window =
        (if ms.isEmpty then 0 else
          (ms.map (fun mo =>
            (((matchRows db user (firstOfMonth up_to_month)
              category_name).filter (fun r => decide (r.1 = mo))).map
              Prod.snd).sum)).sum / (ms.length : ℚ)) := by
  constructor
  · intro r hr
    simp only [matchRows, List.mem_filterMap] at hr
    obtain ⟨e, he, hfe⟩ := hr
    cases hgc : getCategoryById db e.month_category with
    | none => rw [hgc] at hfe; cases hfe
    | some c =>
      rw [hgc] at hfe
      simp only [] at hfe
      cases hgm : getMonthById db c.month_budget with
      | none => rw [hgm] at hfe; cases hfe
      | some mb =>
        rw [hgm] at hfe
        simp only [] at hfe
        by_cases hcond : (decide (mb.user = user) &&
            decide (c.name = category_name) &&
            Date.blt mb.month (firstOfMonth up_to_month) &&
            decide (e.expense_type = ExpenseType.Variable)) = true
        · rw [if_pos hcond] at hfe
          injection hfe with hfe
          subst hfe
          simp only [Bool.and_eq_true] at hcond
          exact hcond.1.2
        · rw [if_neg hcond] at hfe
          cases hfe
  · obtain ⟨ms, h1, h2, h3, h4, h5, hms⟩ := topWindow
      (matchRows db user (firstOfMonth up_to_month) category_name) window
    refine ⟨ms, h1, h2, h3, h4, h5, ?_⟩
    rw [hms]
    simp only [trailing_average_variable]
    rcases hT : (((matchRows db user (firstOfMonth up_to_month)
        category_name).map Prod.fst).dedup.mergeSort dateGe).take window with
      _ | ⟨x, xs⟩
    · simp
    · simp [List.length_map]

/-- Concrete evaluation of the trailing average: on `dbHist`, the "Food"
history before March 2024 has per-month Variable totals 30 (January) and
50 (February), whose mean is 40. -/
theorem trailing_average_dbHist :
    trailing_average_variable dbHist (some 1) ⟨2024, 3, 5⟩ "Food" 3 = 40 := by
  have hms : ([⟨2024, 1, 1⟩, ⟨2024, 2, 1⟩] : List Date).mergeSort dateGe =
      [⟨2024, 2, 1⟩, ⟨2024, 1, 1⟩] := by
    rw [List.mergeSort]
    simp [List.splitInTwo, List.splitAt, List.splitAt.go, List.merge,
      dateGe, Date.ble, Date.blt]
  simp [trailing_average_variable, matchRows, dbHist, getCategoryById,
    getMonthById, findCat, firstOfMonth, List.filterMap, List.dedup,
    List.pwFilter, Date.blt, hms]
  norm_num

end Budget
